import Mathlib

/-
Formal model of `src/whatsapp/http.py` (an HTTP client binding for the
WhatsApp Business Cloud API): the `Route` URL builder, the `HTTPClient`
request pipeline (header and body construction, multipart file handling,
response decoding, status dispatch), the `start` credential handshake and
the convenience operations `read_message` and `download_media`.

Python data is modelled shallowly: JSON documents as an inductive `JValue`
(JSON numbers restricted to integers: the payloads of this client carry no
floats), strings as Lean `String`s, raised exceptions as an explicit error
type threaded through `Except` / pairs.  `json.dumps(..., separators=(",", ":"),
ensure_ascii=True)` and the JSON decoding performed by `response.json()`
are modelled by an executable serializer and parser over `List Char`.
-/

/-! ## JSON values (Python `json` module, numbers restricted to integers) -/

/-- A JSON document as handled by Python's `json` module, with numbers
restricted to integers (no float appears in any payload of this client).
Objects are ordered key/value lists, matching Python dict insertion order. -/
inductive JValue where
  | null : JValue
  | bool (b : Bool) : JValue
  | int (n : Int) : JValue
  | str (s : String) : JValue
  | arr (elems : List JValue) : JValue
  | obj (members : List (String × JValue)) : JValue

/-- The character U+007B (left curly bracket). -/
def lbrace : Char := Char.ofNat 123

/-- The character U+007D (right curly bracket). -/
def rbrace : Char := Char.ofNat 125

/-- Lower-case hexadecimal digit, as used by Python's `\uXXXX` escapes. -/
def hexDigitLower (k : Nat) : Char :=
  Char.ofNat (if k < 10 then 48 + k else 87 + k)

/-- Four-digit lower-case hexadecimal rendering of `n < 0x10000`. -/
def hex4 (n : Nat) : List Char :=
  [hexDigitLower (n / 4096 % 16), hexDigitLower (n / 256 % 16),
   hexDigitLower (n / 16 % 16), hexDigitLower (n % 16)]

/-- Escape of a single character inside a JSON string literal, following
Python's `json.encoder.py_encode_basestring_ascii` (`ensure_ascii=True`):
short escapes for the seven specials, `\uXXXX` for every other character
outside `0x20..0x7e`, and UTF-16 surrogate pairs for astral characters. -/
def escapeChar (c : Char) : List Char :=
  if c = '"' then ['\\', '"']
  else if c = '\\' then ['\\', '\\']
  else if c = '\n' then ['\\', 'n']
  else if c = '\r' then ['\\', 'r']
  else if c = '\t' then ['\\', 't']
  else if c = Char.ofNat 8 then ['\\', 'b']
  else if c = Char.ofNat 12 then ['\\', 'f']
  else if c.toNat < 0x20 then '\\' :: 'u' :: hex4 c.toNat
  else if c.toNat < 0x7f then [c]
  else if c.toNat < 0x10000 then '\\' :: 'u' :: hex4 c.toNat
  else
    ('\\' :: 'u' :: hex4 (0xD800 + (c.toNat - 0x10000) / 0x400)) ++
    ('\\' :: 'u' :: hex4 (0xDC00 + (c.toNat - 0x10000) % 0x400))

/-- Escaped body of a JSON string literal. -/
def escChars (s : String) : List Char := s.data.flatMap escapeChar

/-- A JSON string literal: quote, escaped body, quote. -/
def strLitChars (s : String) : List Char := '"' :: escChars s ++ ['"']

/-- Decimal digits of a natural number, accumulator-passing with fuel
(the fuel `m + 1` always suffices); models Python's `str` on `int`. -/
def natCharsGo : Nat → Nat → List Char → List Char
  | 0, _, acc => acc
  | f + 1, m, acc =>
    let acc2 := Char.ofNat (48 + m % 10) :: acc
    if m < 10 then acc2 else natCharsGo f (m / 10) acc2

/-- Decimal rendering of a natural number (`str(m)` in Python). -/
def natChars (m : Nat) : List Char := natCharsGo (m + 1) m []

/-- Decimal rendering of an integer (`str(n)` in Python). -/
def intChars : Int → List Char
  | .ofNat m => natChars m
  | .negSucc m => '-' :: natChars (m + 1)

/-- Comma-separated join, as produced by the `","` item separator of
`json.dumps(..., separators=(",", ":"))`. -/
def commaJoin : List (List Char) → List Char
  | [] => []
  | [a] => a
  | a :: rest => a ++ ',' :: commaJoin rest

/-- Serialization of a `JValue` to characters: Python's
`json.dumps(data, separators=(",", ":"), ensure_ascii=True)` (src line 110). -/
def dumpsChars : JValue → List Char
  | .null => ['n', 'u', 'l', 'l']
  | .bool b => if b then ['t', 'r', 'u', 'e'] else ['f', 'a', 'l', 's', 'e']
  | .int n => intChars n
  | .str s => strLitChars s
  | .arr xs => '[' :: commaJoin (xs.attach.map fun x => dumpsChars x.1) ++ [']']
  | .obj kvs =>
      lbrace ::
        commaJoin (kvs.attach.map fun x => strLitChars x.1.1 ++ ':' :: dumpsChars x.1.2) ++
        [rbrace]
termination_by v => sizeOf v
decreasing_by
  · have := List.sizeOf_lt_of_mem x.2
    simp only [JValue.arr.sizeOf_spec]
    omega
  · have h1 := List.sizeOf_lt_of_mem x.2
    have h2 : sizeOf x.1.2 < sizeOf x.1 := by
      obtain ⟨⟨k, v⟩, hm⟩ := x
      simp only [Prod.mk.sizeOf_spec]
      omega
    simp only [JValue.obj.sizeOf_spec]
    omega

/-- Serialization `json.dumps(v, separators=(",", ":"), ensure_ascii=True)` as a `String`. -/
def jsonDumps (v : JValue) : String := String.mk (dumpsChars v)

theorem dumpsChars_arr (xs : List JValue) :
    dumpsChars (.arr xs) = '[' :: commaJoin (xs.map dumpsChars) ++ [']'] := by
  rw [dumpsChars]
  simp only [List.attach_map_coe]

theorem dumpsChars_obj (kvs : List (String × JValue)) :
    dumpsChars (.obj kvs) =
      lbrace :: commaJoin (kvs.map fun kv => strLitChars kv.1 ++ ':' :: dumpsChars kv.2) ++
        [rbrace] := by
  rw [dumpsChars,
    List.attach_map_coe kvs (fun kv => strLitChars kv.1 ++ ':' :: dumpsChars kv.2)]

/-! ## JSON parsing (model of `response.json()`, i.e. Python `json.loads`) -/

/-- JSON whitespace accepted between tokens by `json.loads`. -/
def isJsonWs (c : Char) : Bool :=
  c = ' ' || c = '\t' || c = '\n' || c = '\r'

/-- Skip leading JSON whitespace. -/
def skipWs : List Char → List Char
  | [] => []
  | c :: cs => if isJsonWs c then skipWs cs else c :: cs

/-- Value of one hexadecimal digit. -/
def hexVal (c : Char) : Option Nat :=
  if '0' ≤ c ∧ c ≤ '9' then some (c.toNat - 48)
  else if 'a' ≤ c ∧ c ≤ 'f' then some (c.toNat - 87)
  else if 'A' ≤ c ∧ c ≤ 'F' then some (c.toNat - 55)
  else none

/-- Consume a maximal run of decimal digits, folding them onto `acc`. -/
def parseDigitsGo : List Char → Nat → Nat × List Char
  | [], acc => (acc, [])
  | c :: cs, acc =>
    if c.isDigit then parseDigitsGo cs (acc * 10 + (c.toNat - 48)) else (acc, c :: cs)

/-- Parse a nonempty run of decimal digits. -/
def parseNatChars : List Char → Option (Nat × List Char)
  | [] => none
  | c :: cs => if c.isDigit then some (parseDigitsGo (c :: cs) 0) else none

/-- Parse a JSON integer (optional minus sign, then digits). -/
def parseNum : List Char → Option (Int × List Char)
  | [] => none
  | c :: cs =>
    if c = '-' then
      match parseNatChars cs with
      | some (m, r) => some (-(m : Int), r)
      | none => none
    else
      match parseNatChars (c :: cs) with
      | some (m, r) => some ((m : Int), r)
      | none => none

/-- Expect a literal sequence of characters; return the remainder. -/
def matchLit : List Char → List Char → Option (List Char)
  | [], cs => some cs
  | _ :: _, [] => none
  | p :: ps, c :: cs => if c = p then matchLit ps cs else none

/-- Decode one escape sequence (the part after the backslash), returning the
decoded character and the remaining input. Decodes the escapes `json.loads`
accepts, combining UTF-16 surrogate pairs; a lone surrogate escape (which
Python would keep as a lone-surrogate `str` element, a value with no `Char`
counterpart) is rejected. -/
def escDecode : List Char → Option (Char × List Char)
  | [] => none
  | e :: cs =>
    if e = '"' then some ('"', cs)
    else if e = '\\' then some ('\\', cs)
    else if e = '/' then some ('/', cs)
    else if e = 'n' then some ('\n', cs)
    else if e = 'r' then some ('\r', cs)
    else if e = 't' then some ('\t', cs)
    else if e = 'b' then some (Char.ofNat 8, cs)
    else if e = 'f' then some (Char.ofNat 12, cs)
    else if e = 'u' then
      match cs with
      | h1 :: h2 :: h3 :: h4 :: cs3 =>
        match hexVal h1, hexVal h2, hexVal h3, hexVal h4 with
        | some a, some b, some c2, some d =>
          let n := ((a * 16 + b) * 16 + c2) * 16 + d
          if 0xD800 ≤ n ∧ n < 0xDC00 then
            match cs3 with
            | b1 :: u1 :: g1 :: g2 :: g3 :: g4 :: cs4 =>
              if b1 = '\\' ∧ u1 = 'u' then
                match hexVal g1, hexVal g2, hexVal g3, hexVal g4 with
                | some a2, some b2, some c3, some d2 =>
                  let m := ((a2 * 16 + b2) * 16 + c3) * 16 + d2
                  if 0xDC00 ≤ m ∧ m < 0xE000 then
                    some (Char.ofNat (0x10000 + (n - 0xD800) * 0x400 + (m - 0xDC00)), cs4)
                  else none
                | _, _, _, _ => none
              else none
            | _ => none
          else if 0xDC00 ≤ n ∧ n < 0xE000 then none
          else some (Char.ofNat n, cs3)
        | _, _, _, _ => none
      | _ => none
    else none

/-- Body of a JSON string literal after the opening quote, fuel-indexed.
`acc` holds the decoded characters in reverse; any fuel exceeding the input
length suffices, since each step consumes at least one input character. -/
def parseStrBody : Nat → List Char → List Char → Option (String × List Char)
  | 0, _, _ => none
  | _ + 1, _, [] => none
  | f + 1, acc, c :: cs =>
    if c = '"' then some (String.mk acc.reverse, cs)
    else if c = '\\' then
      match escDecode cs with
      | some (d, cs2) => parseStrBody f (d :: acc) cs2
      | none => none
    else parseStrBody f (c :: acc) cs

/-- Parsing mode: a single value, the element list of an array after its
first-element position, or the member list of an object. -/
inductive PMode where
  | value : PMode
  | elems : PMode
  | membs : PMode

/-- Parser output for each mode. -/
inductive POut where
  | val (v : JValue) : POut
  | elems (xs : List JValue) : POut
  | membs (kvs : List (String × JValue)) : POut

/-- Recursive-descent JSON parser, fuel-indexed (structural on the fuel so
that it evaluates inside the kernel). -/
def parseStep : Nat → PMode → List Char → Option (POut × List Char)
  | 0, _, _ => none
  | f + 1, .value, cs0 =>
    match skipWs cs0 with
    | [] => none
    | c :: rest =>
      if c = 'n' then
        match matchLit ['u', 'l', 'l'] rest with
        | some r => some (.val .null, r)
        | none => none
      else if c = 't' then
        match matchLit ['r', 'u', 'e'] rest with
        | some r => some (.val (.bool true), r)
        | none => none
      else if c = 'f' then
        match matchLit ['a', 'l', 's', 'e'] rest with
        | some r => some (.val (.bool false), r)
        | none => none
      else if c = '"' then
        match parseStrBody (rest.length + 1) [] rest with
        | some (s, r) => some (.val (.str s), r)
        | none => none
      else if c = '[' then
        match skipWs rest with
        | [] => none
        | c1 :: rest2 =>
          if c1 = ']' then some (.val (.arr []), rest2)
          else
            match parseStep f .elems (c1 :: rest2) with
            | some (.elems xs, r) => some (.val (.arr xs), r)
            | _ => none
      else if c = lbrace then
        match skipWs rest with
        | [] => none
        | c1 :: rest2 =>
          if c1 = rbrace then some (.val (.obj []), rest2)
          else
            match parseStep f .membs (c1 :: rest2) with
            | some (.membs kvs, r) => some (.val (.obj kvs), r)
            | _ => none
      else if c = '-' || c.isDigit then
        match parseNum (c :: rest) with
        | some (n, r) => some (.val (.int n), r)
        | none => none
      else none
  | f + 1, .elems, cs =>
    match parseStep f .value cs with
    | some (.val v, rest) =>
      (match skipWs rest with
       | [] => none
       | c :: rest2 =>
         if c = ',' then
           match parseStep f .elems rest2 with
           | some (.elems xs, r) => some (.elems (v :: xs), r)
           | _ => none
         else if c = ']' then some (.elems [v], rest2)
         else none)
    | _ => none
  | f + 1, .membs, cs =>
    match skipWs cs with
    | [] => none
    | c :: rest =>
      if c = '"' then
        match parseStrBody (rest.length + 1) [] rest with
        | some (k, rest2) =>
          (match skipWs rest2 with
           | [] => none
           | c1 :: rest3 =>
             if c1 = ':' then
               match parseStep f .value rest3 with
               | some (.val v, rest4) =>
                 (match skipWs rest4 with
                  | [] => none
                  | c2 :: rest5 =>
                    if c2 = ',' then
                      match parseStep f .membs rest5 with
                      | some (.membs kvs, r) => some (.membs ((k, v) :: kvs), r)
                      | _ => none
                    else if c2 = rbrace then some (.membs [(k, v)], rest5)
                    else none)
               | _ => none
             else none)
        | none => none
      else none

/-- Parse a complete JSON document: one value, with only whitespace allowed
after it. The fuel `2 * length + 2` dominates the fuel consumption of the
parser on any input it accepts. -/
def parseJsonChars (cs : List Char) : Option JValue :=
  match parseStep (2 * cs.length + 2) .value cs with
  | some (.val v, rest) => if (skipWs rest).isEmpty then some v else none
  | _ => none

/-- Model of `response.json()` succeeding: `json.loads` on the body text. -/
def parseJson (s : String) : Option JValue := parseJsonChars s.data

/-! ## Round-trip: `json.loads` inverts compact `json.dumps` -/

/-- The head of the remaining input is not a decimal digit (so a greedy
number parse that ends right before `rest` cannot overrun into it). -/
def headNotDigit : List Char → Bool
  | [] => true
  | c :: _ => !c.isDigit

/-- First character of the serialized form of any JSON value. -/
def valueStart (c : Char) : Bool :=
  c = 'n' || c = 't' || c = 'f' || c = '"' || c = '[' || c = lbrace || c = '-' || c.isDigit

theorem skipWs_cons {c : Char} (h : isJsonWs c = false) (cs : List Char) :
    skipWs (c :: cs) = c :: cs := by
  simp [skipWs, h]

theorem matchLit_self : ∀ (ps rest : List Char), matchLit ps (ps ++ rest) = some rest
  | [], _ => rfl
  | p :: ps, rest => by simp [matchLit, matchLit_self ps rest]

theorem natCharsGo_eq : ∀ (m f : Nat) (tail : List Char), m < f →
    natCharsGo f m tail = natChars m ++ tail := by
  intro m
  induction m using Nat.strong_induction_on with
  | _ m ih =>
    intro f tail hf
    match f, hf with
    | f + 1, _ =>
      by_cases hm : m < 10
      · simp [natCharsGo, natChars, hm]
      · have hdiv : m / 10 < m := Nat.div_lt_self (by omega) (by omega)
        rw [natCharsGo]
        simp only [hm, if_false]
        rw [ih (m / 10) hdiv f _ (by omega)]
        conv_rhs => rw [natChars, natCharsGo]
        simp only [hm, if_false]
        rw [ih (m / 10) hdiv m _ (by omega)]
        simp

theorem natChars_shape : ∀ m : Nat, ∀ c ∈ natChars m, ∃ d, d < 10 ∧ c = Char.ofNat (48 + d) := by
  intro m
  induction m using Nat.strong_induction_on with
  | _ m ih =>
    intro c hc
    by_cases hm : m < 10
    · rw [natChars, natCharsGo] at hc
      simp only [hm, if_true] at hc
      rcases List.mem_singleton.mp hc with rfl
      exact ⟨m % 10, Nat.mod_lt _ (by omega), rfl⟩
    · rw [natChars, natCharsGo] at hc
      simp only [hm, if_false] at hc
      rw [natCharsGo_eq (m / 10) m _ (Nat.div_lt_self (by omega) (by omega))] at hc
      rcases List.mem_append.mp hc with h | h
      · exact ih (m / 10) (Nat.div_lt_self (by omega) (by omega)) c h
      · rcases List.mem_singleton.mp h with rfl
        exact ⟨m % 10, Nat.mod_lt _ (by omega), rfl⟩

theorem digit_char_facts : ∀ d, d < 10 →
    (Char.ofNat (48 + d)).isDigit = true ∧ (Char.ofNat (48 + d)).toNat = 48 + d := by
  decide

theorem natChars_digit : ∀ m : Nat, ∀ c ∈ natChars m, c.isDigit = true := by
  intro m c hc
  rcases natChars_shape m c hc with ⟨d, hd, rfl⟩
  exact (digit_char_facts d hd).1

theorem natChars_ne_nil (m : Nat) : natChars m ≠ [] := by
  by_cases hm : m < 10
  · rw [natChars, natCharsGo]
    simp [hm]
  · rw [natChars, natCharsGo]
    simp only [hm, if_false]
    rw [natCharsGo_eq (m / 10) m _ (Nat.div_lt_self (by omega) (by omega))]
    simp

theorem natChars_decomp (m : Nat) (hm : 10 ≤ m) :
    natChars m = natChars (m / 10) ++ [Char.ofNat (48 + m % 10)] := by
  conv_lhs => rw [natChars, natCharsGo]
  have hm' : ¬ m < 10 := by omega
  simp only [hm', if_false]
  rw [natCharsGo_eq (m / 10) m _ (Nat.div_lt_self (by omega) (by omega))]

theorem natChars_small (m : Nat) (hm : m < 10) :
    natChars m = [Char.ofNat (48 + m)] := by
  rw [natChars, natCharsGo]
  simp [hm, Nat.mod_eq_of_lt hm]

/-- Folding step for decimal digit accumulation. -/
def digitStep (a : Nat) (c : Char) : Nat := a * 10 + (c.toNat - 48)

theorem parseDigitsGo_digits : ∀ (ds rest : List Char) (acc : Nat),
    (∀ c ∈ ds, c.isDigit = true) →
    parseDigitsGo (ds ++ rest) acc = parseDigitsGo rest (List.foldl digitStep acc ds)
  | [], _, _, _ => rfl
  | d :: ds, rest, acc, h => by
    have hd : d.isDigit = true := h d (List.mem_cons_self d ds)
    simp only [List.cons_append, parseDigitsGo, hd, if_true, List.foldl_cons]
    exact parseDigitsGo_digits ds rest (digitStep acc d)
      (fun c hc => h c (List.mem_cons_of_mem d hc))

theorem parseDigitsGo_stop (rest : List Char) (acc : Nat) (h : headNotDigit rest = true) :
    parseDigitsGo rest acc = (acc, rest) := by
  cases rest with
  | nil => rfl
  | cons c cs =>
    have : c.isDigit = false := by
      simp [headNotDigit] at h
      exact h
    simp [parseDigitsGo, this]

theorem natChars_foldl : ∀ (m : Nat) (acc : Nat),
    List.foldl digitStep acc (natChars m) = acc * 10 ^ (natChars m).length + m := by
  intro m
  induction m using Nat.strong_induction_on with
  | _ m ih =>
    intro acc
    by_cases hm : m < 10
    · rw [natChars_small m hm]
      simp [digitStep, (digit_char_facts m hm).2]
    · rw [natChars_decomp m (by omega)]
      rw [List.foldl_append, ih (m / 10) (Nat.div_lt_self (by omega) (by omega))]
      have hlt : m % 10 < 10 := Nat.mod_lt _ (by omega)
      simp only [List.foldl_cons, List.foldl_nil, digitStep, (digit_char_facts _ hlt).2,
        List.length_append, List.length_singleton]
      have : 10 ^ ((natChars (m / 10)).length + 1) = 10 ^ (natChars (m / 10)).length * 10 := by
        ring
      rw [this]
      have hdm : m / 10 * 10 + m % 10 = m := by omega
      ring_nf
      omega

theorem parseNatChars_natChars (m : Nat) (rest : List Char) (h : headNotDigit rest = true) :
    parseNatChars (natChars m ++ rest) = some (m, rest) := by
  obtain ⟨c, t, hct⟩ := List.exists_cons_of_ne_nil (natChars_ne_nil m)
  have hd : c.isDigit = true := by
    apply natChars_digit m
    rw [hct]
    exact List.mem_cons_self c t
  rw [hct, List.cons_append, parseNatChars]
  simp only [hd, if_true]
  rw [← List.cons_append, ← hct,
    parseDigitsGo_digits (natChars m) rest 0 (natChars_digit m),
    parseDigitsGo_stop rest _ h]
  rw [natChars_foldl m 0]
  simp

/-- A decimal digit is none of the characters the JSON grammar dispatches on. -/
theorem digit_ne_marks {c : Char} (h : c.isDigit = true) :
    c ≠ 'n' ∧ c ≠ 't' ∧ c ≠ 'f' ∧ c ≠ '"' ∧ c ≠ '[' ∧ c ≠ lbrace ∧ c ≠ '-' ∧
      c ≠ ']' ∧ c ≠ rbrace ∧ c ≠ ',' ∧ c ≠ ':' ∧ c ≠ '\\' ∧ isJsonWs c = false := by
  have hws : isJsonWs c = false := by
    by_contra hws
    rw [Bool.not_eq_false] at hws
    simp only [isJsonWs, Bool.or_eq_true, decide_eq_true_eq] at hws
    rcases hws with ((rfl | rfl) | rfl) | rfl <;> revert h <;> decide
  refine ⟨?_, ?_, ?_, ?_, ?_, ?_, ?_, ?_, ?_, ?_, ?_, ?_, hws⟩ <;>
    (intro hc; subst hc; revert h; decide)

theorem dumpsChars_head : ∀ v : JValue,
    ∃ c t, dumpsChars v = c :: t ∧ valueStart c = true := by
  intro v
  cases v with
  | null => exact ⟨'n', ['u', 'l', 'l'], by simp [dumpsChars], by decide⟩
  | bool b =>
    cases b
    · exact ⟨'f', ['a', 'l', 's', 'e'], by simp [dumpsChars], by decide⟩
    · exact ⟨'t', ['r', 'u', 'e'], by simp [dumpsChars], by decide⟩
  | int n =>
    cases n with
    | ofNat m =>
      obtain ⟨c, t, hct⟩ := List.exists_cons_of_ne_nil (natChars_ne_nil m)
      refine ⟨c, t, by simp only [dumpsChars, intChars]; exact hct, ?_⟩
      have : c.isDigit = true := by
        apply natChars_digit m
        rw [hct]; exact List.mem_cons_self c t
      simp [valueStart, this]
    | negSucc m =>
      exact ⟨'-', natChars (m + 1), by simp only [dumpsChars, intChars], by decide⟩
  | str s =>
    exact ⟨'"', escChars s ++ ['"'],
      by simp only [dumpsChars, strLitChars, List.cons_append], by decide⟩
  | arr xs =>
    exact ⟨'[', commaJoin (xs.map dumpsChars) ++ [']'], dumpsChars_arr xs, by decide⟩
  | obj kvs =>
    exact ⟨lbrace, commaJoin (kvs.map fun kv => strLitChars kv.1 ++ ':' :: dumpsChars kv.2) ++
      [rbrace], dumpsChars_obj kvs, by decide⟩

theorem valueStart_facts {c : Char} (h : valueStart c = true) :
    isJsonWs c = false ∧ c ≠ ']' ∧ c ≠ rbrace ∧ c ≠ ',' ∧ c ≠ ':' := by
  simp only [valueStart, Bool.or_eq_true] at h
  rcases h with ((((((h | h) | h) | h) | h) | h) | h) | h
  all_goals first
    | (simp only [decide_eq_true_eq] at h; subst h; exact ⟨by decide, by decide, by decide, by decide, by decide⟩)
    | (rcases digit_ne_marks h with ⟨_, _, _, _, _, _, _, h8, h9, h10, h11, _, h13⟩
       exact ⟨h13, h8, h9, h10, h11⟩)

theorem dumpsChars_ne_nil (v : JValue) : dumpsChars v ≠ [] := by
  obtain ⟨c, t, hct, _⟩ := dumpsChars_head v
  rw [hct]
  simp

theorem char_valid_nat (c : Char) :
    c.toNat < 0xD800 ∨ (0xDFFF < c.toNat ∧ c.toNat < 0x110000) := c.valid

theorem hexVal_hexDigitLower : ∀ k, k < 16 → hexVal (hexDigitLower k) = some k := by decide

set_option maxHeartbeats 1000000 in
theorem escapeChar_length_pos (c : Char) : 0 < (escapeChar c).length := by
  unfold escapeChar
  split_ifs <;> simp

theorem strBody_esc_quote (f : Nat) (acc R : List Char) :
    parseStrBody (f + 1) acc ('\\' :: '"' :: R) = parseStrBody f ('"' :: acc) R := by
  simp [parseStrBody, escDecode]

theorem strBody_esc_bs (f : Nat) (acc R : List Char) :
    parseStrBody (f + 1) acc ('\\' :: '\\' :: R) = parseStrBody f ('\\' :: acc) R := by
  simp [parseStrBody, escDecode]

theorem strBody_esc_n (f : Nat) (acc R : List Char) :
    parseStrBody (f + 1) acc ('\\' :: 'n' :: R) = parseStrBody f ('\n' :: acc) R := by
  simp [parseStrBody, escDecode]

theorem strBody_esc_r (f : Nat) (acc R : List Char) :
    parseStrBody (f + 1) acc ('\\' :: 'r' :: R) = parseStrBody f ('\r' :: acc) R := by
  simp [parseStrBody, escDecode]

theorem strBody_esc_t (f : Nat) (acc R : List Char) :
    parseStrBody (f + 1) acc ('\\' :: 't' :: R) = parseStrBody f ('\t' :: acc) R := by
  simp [parseStrBody, escDecode]

theorem strBody_esc_b (f : Nat) (acc R : List Char) :
    parseStrBody (f + 1) acc ('\\' :: 'b' :: R) = parseStrBody f (Char.ofNat 8 :: acc) R := by
  simp [parseStrBody, escDecode]

theorem strBody_esc_f (f : Nat) (acc R : List Char) :
    parseStrBody (f + 1) acc ('\\' :: 'f' :: R) = parseStrBody f (Char.ofNat 12 :: acc) R := by
  simp [parseStrBody, escDecode]

theorem strBody_plain (f : Nat) (acc R : List Char) (c : Char)
    (h1 : ¬ c = '"') (h2 : ¬ c = '\\') :
    parseStrBody (f + 1) acc (c :: R) = parseStrBody f (c :: acc) R := by
  simp [parseStrBody, h1, h2]

theorem strBody_close (f : Nat) (acc R : List Char) :
    parseStrBody (f + 1) acc ('"' :: R) = some (String.mk acc.reverse, R) := by
  simp [parseStrBody]

theorem strBody_esc_u (f : Nat) (acc R : List Char) (k1 k2 k3 k4 : Char) (n : Nat)
    (e1 : hexVal k1 = some (n / 4096 % 16)) (e2 : hexVal k2 = some (n / 256 % 16))
    (e3 : hexVal k3 = some (n / 16 % 16)) (e4 : hexVal k4 = some (n % 16))
    (hn : n < 0x10000) (hns : ¬ (0xD800 ≤ n ∧ n < 0xE000)) :
    parseStrBody (f + 1) acc ('\\' :: 'u' :: k1 :: k2 :: k3 :: k4 :: R) =
      parseStrBody f (Char.ofNat n :: acc) R := by
  have hrec : ((n / 4096 % 16 * 16 + n / 256 % 16) * 16 + n / 16 % 16) * 16 + n % 16 = n := by
    omega
  simp [parseStrBody, escDecode, e1, e2, e3, e4, hrec]
  rw [if_neg (by omega), if_neg (by omega)]

theorem strBody_esc_surr (f : Nat) (acc R : List Char)
    (k1 k2 k3 k4 g1 g2 g3 g4 : Char) (hi lo : Nat)
    (e1 : hexVal k1 = some (hi / 4096 % 16)) (e2 : hexVal k2 = some (hi / 256 % 16))
    (e3 : hexVal k3 = some (hi / 16 % 16)) (e4 : hexVal k4 = some (hi % 16))
    (f1 : hexVal g1 = some (lo / 4096 % 16)) (f2 : hexVal g2 = some (lo / 256 % 16))
    (f3 : hexVal g3 = some (lo / 16 % 16)) (f4 : hexVal g4 = some (lo % 16))
    (hhi : 0xD800 ≤ hi ∧ hi < 0xDC00) (hlo : 0xDC00 ≤ lo ∧ lo < 0xE000) :
    parseStrBody (f + 1) acc
        ('\\' :: 'u' :: k1 :: k2 :: k3 :: k4 :: '\\' :: 'u' :: g1 :: g2 :: g3 :: g4 :: R) =
      parseStrBody f (Char.ofNat (0x10000 + (hi - 0xD800) * 0x400 + (lo - 0xDC00)) :: acc) R := by
  have hreci : ((hi / 4096 % 16 * 16 + hi / 256 % 16) * 16 + hi / 16 % 16) * 16 + hi % 16 = hi := by
    omega
  have hrecl : ((lo / 4096 % 16 * 16 + lo / 256 % 16) * 16 + lo / 16 % 16) * 16 + lo % 16 = lo := by
    omega
  simp [parseStrBody, escDecode, e1, e2, e3, e4, f1, f2, f3, f4, hreci, hrecl]
  rw [if_pos hhi, if_pos hlo]

theorem parseStrBody_esc : ∀ (l : List Char) (fuel : Nat) (acc rest : List Char),
    (l.flatMap escapeChar).length < fuel →
    parseStrBody fuel acc (l.flatMap escapeChar ++ '"' :: rest) =
      some (String.mk (acc.reverse ++ l), rest) := by
  intro l
  induction l with
  | nil =>
    intro fuel acc rest hf
    match fuel, hf with
    | f + 1, _ =>
      rw [List.flatMap_nil, List.nil_append, strBody_close]
      simp
  | cons c l ih =>
    intro fuel acc rest hf
    rw [List.flatMap_cons, List.length_append] at hf
    rw [List.flatMap_cons, List.append_assoc]
    match fuel, hf with
    | f + 1, hf =>
    by_cases h1 : c = '"'
    · subst h1
      rw [show escapeChar '"' = ['\\', '"'] from rfl] at hf ⊢
      rw [List.cons_append, List.cons_append, List.nil_append, strBody_esc_quote,
        ih f _ rest (by simp at hf ⊢; omega)]
      simp
    by_cases h2 : c = '\\'
    · subst h2
      rw [show escapeChar '\\' = ['\\', '\\'] from rfl] at hf ⊢
      rw [List.cons_append, List.cons_append, List.nil_append, strBody_esc_bs,
        ih f _ rest (by simp at hf ⊢; omega)]
      simp
    by_cases h3 : c = '\n'
    · subst h3
      rw [show escapeChar '\n' = ['\\', 'n'] from rfl] at hf ⊢
      rw [List.cons_append, List.cons_append, List.nil_append, strBody_esc_n,
        ih f _ rest (by simp at hf ⊢; omega)]
      simp
    by_cases h4 : c = '\r'
    · subst h4
      rw [show escapeChar '\r' = ['\\', 'r'] from rfl] at hf ⊢
      rw [List.cons_append, List.cons_append, List.nil_append, strBody_esc_r,
        ih f _ rest (by simp at hf ⊢; omega)]
      simp
    by_cases h5 : c = '\t'
    · subst h5
      rw [show escapeChar '\t' = ['\\', 't'] from rfl] at hf ⊢
      rw [List.cons_append, List.cons_append, List.nil_append, strBody_esc_t,
        ih f _ rest (by simp at hf ⊢; omega)]
      simp
    by_cases h6 : c = Char.ofNat 8
    · subst h6
      rw [show escapeChar (Char.ofNat 8) = ['\\', 'b'] from rfl] at hf ⊢
      rw [List.cons_append, List.cons_append, List.nil_append, strBody_esc_b,
        ih f _ rest (by simp at hf ⊢; omega)]
      simp
    by_cases h7 : c = Char.ofNat 12
    · subst h7
      rw [show escapeChar (Char.ofNat 12) = ['\\', 'f'] from rfl] at hf ⊢
      rw [List.cons_append, List.cons_append, List.nil_append, strBody_esc_f,
        ih f _ rest (by simp at hf ⊢; omega)]
      simp
    by_cases h8 : c.toNat < 0x20
    · have he : escapeChar c = '\\' :: 'u' :: hex4 c.toNat := by
        unfold escapeChar
        rw [if_neg h1, if_neg h2, if_neg h3, if_neg h4, if_neg h5, if_neg h6, if_neg h7,
          if_pos h8]
      rw [he] at hf ⊢
      simp only [hex4, List.cons_append, List.nil_append]
      rw [strBody_esc_u f acc _ _ _ _ _ c.toNat
        (hexVal_hexDigitLower _ (Nat.mod_lt _ (by omega)))
        (hexVal_hexDigitLower _ (Nat.mod_lt _ (by omega)))
        (hexVal_hexDigitLower _ (Nat.mod_lt _ (by omega)))
        (hexVal_hexDigitLower _ (Nat.mod_lt _ (by omega)))
        (by omega) (by omega)]
      rw [Char.ofNat_toNat, ih f _ rest (by simp [hex4] at hf ⊢; omega)]
      simp
    by_cases h9 : c.toNat < 0x7f
    · have he : escapeChar c = [c] := by
        unfold escapeChar
        rw [if_neg h1, if_neg h2, if_neg h3, if_neg h4, if_neg h5, if_neg h6, if_neg h7,
          if_neg h8, if_pos h9]
      rw [he] at hf ⊢
      rw [List.cons_append, List.nil_append, strBody_plain f _ _ c h1 h2,
        ih f _ rest (by simp at hf ⊢; omega)]
      simp
    by_cases h10 : c.toNat < 0x10000
    · have he : escapeChar c = '\\' :: 'u' :: hex4 c.toNat := by
        unfold escapeChar
        rw [if_neg h1, if_neg h2, if_neg h3, if_neg h4, if_neg h5, if_neg h6, if_neg h7,
          if_neg h8, if_neg h9, if_pos h10]
      rw [he] at hf ⊢
      simp only [hex4, List.cons_append, List.nil_append]
      rw [strBody_esc_u f acc _ _ _ _ _ c.toNat
        (hexVal_hexDigitLower _ (Nat.mod_lt _ (by omega)))
        (hexVal_hexDigitLower _ (Nat.mod_lt _ (by omega)))
        (hexVal_hexDigitLower _ (Nat.mod_lt _ (by omega)))
        (hexVal_hexDigitLower _ (Nat.mod_lt _ (by omega)))
        (by omega)
        (by rcases char_valid_nat c with h | h <;> omega)]
      rw [Char.ofNat_toNat, ih f _ rest (by simp [hex4] at hf ⊢; omega)]
      simp
    · -- astral character: escaped as a UTF-16 surrogate pair
      have hval := char_valid_nat c
      have hlt : c.toNat < 0x110000 := by rcases hval with h | h <;> omega
      have hdiv : (c.toNat - 0x10000) / 0x400 < 0x400 := by omega
      have he : escapeChar c =
          ('\\' :: 'u' :: hex4 (0xD800 + (c.toNat - 0x10000) / 0x400)) ++
          ('\\' :: 'u' :: hex4 (0xDC00 + (c.toNat - 0x10000) % 0x400)) := by
        unfold escapeChar
        rw [if_neg h1, if_neg h2, if_neg h3, if_neg h4, if_neg h5, if_neg h6, if_neg h7,
          if_neg h8, if_neg h9, if_neg h10]
      rw [he] at hf ⊢
      have hmod : (c.toNat - 0x10000) % 0x400 < 0x400 := Nat.mod_lt _ (by omega)
      simp only [hex4, List.cons_append, List.append_assoc, List.nil_append]
      rw [strBody_esc_surr f acc _ _ _ _ _ _ _ _ _
        (0xD800 + (c.toNat - 0x10000) / 0x400) (0xDC00 + (c.toNat - 0x10000) % 0x400)
        (hexVal_hexDigitLower _ (Nat.mod_lt _ (by omega)))
        (hexVal_hexDigitLower _ (Nat.mod_lt _ (by omega)))
        (hexVal_hexDigitLower _ (Nat.mod_lt _ (by omega)))
        (hexVal_hexDigitLower _ (Nat.mod_lt _ (by omega)))
        (hexVal_hexDigitLower _ (Nat.mod_lt _ (by omega)))
        (hexVal_hexDigitLower _ (Nat.mod_lt _ (by omega)))
        (hexVal_hexDigitLower _ (Nat.mod_lt _ (by omega)))
        (hexVal_hexDigitLower _ (Nat.mod_lt _ (by omega)))
        ⟨by omega, by omega⟩ ⟨by omega, by omega⟩]
      have hcomb : 0x10000 + (0xD800 + (c.toNat - 0x10000) / 0x400 - 0xD800) * 0x400 +
          (0xDC00 + (c.toNat - 0x10000) % 0x400 - 0xDC00) = c.toNat := by
        have h1' : 0xD800 + (c.toNat - 0x10000) / 0x400 - 0xD800 =
            (c.toNat - 0x10000) / 0x400 := by omega
        have h2' : 0xDC00 + (c.toNat - 0x10000) % 0x400 - 0xDC00 =
            (c.toNat - 0x10000) % 0x400 := by omega
        rw [h1', h2']
        omega
      rw [hcomb, Char.ofNat_toNat, ih f _ rest (by simp [hex4] at hf ⊢; omega)]
      simp

theorem neg_ofNat_succ (m : Nat) : -((m + 1 : Nat) : Int) = Int.negSucc m := by
  rw [Int.negSucc_eq]
  push_cast
  ring

theorem parseNum_nat (m : Nat) (rest : List Char) (h : headNotDigit rest = true) :
    parseNum (natChars m ++ rest) = some ((m : Int), rest) := by
  obtain ⟨c, t, hct⟩ := List.exists_cons_of_ne_nil (natChars_ne_nil m)
  have hd : c.isDigit = true := by
    apply natChars_digit m
    rw [hct]
    exact List.mem_cons_self c t
  rw [hct, List.cons_append, parseNum]
  rw [if_neg (digit_ne_marks hd).2.2.2.2.2.2.1]
  rw [← List.cons_append, ← hct, parseNatChars_natChars m rest h]

theorem parseNum_int (n : Int) (rest : List Char) (h : headNotDigit rest = true) :
    parseNum (intChars n ++ rest) = some (n, rest) := by
  cases n with
  | ofNat m => exact parseNum_nat m rest h
  | negSucc m =>
    rw [intChars, List.cons_append, parseNum, if_pos rfl,
      parseNatChars_natChars (m + 1) rest h]
    simp only [neg_ofNat_succ]

/-- Elements of an array, comma-joined, as emitted by `dumpsChars`. -/
def joinElems (xs : List JValue) : List Char := commaJoin (xs.map dumpsChars)

/-- Members of an object, comma-joined, as emitted by `dumpsChars`. -/
def joinMembs (kvs : List (String × JValue)) : List Char :=
  commaJoin (kvs.map fun kv => strLitChars kv.1 ++ ':' :: dumpsChars kv.2)

theorem dumpsChars_arr2 (xs : List JValue) :
    dumpsChars (.arr xs) = '[' :: joinElems xs ++ [']'] := dumpsChars_arr xs

theorem dumpsChars_obj2 (kvs : List (String × JValue)) :
    dumpsChars (.obj kvs) = lbrace :: joinMembs kvs ++ [rbrace] := dumpsChars_obj kvs

theorem joinElems_single (x : JValue) : joinElems [x] = dumpsChars x := rfl

theorem joinElems_cons (x y : JValue) (ys : List JValue) :
    joinElems (x :: y :: ys) = dumpsChars x ++ ',' :: joinElems (y :: ys) := rfl

theorem joinMembs_single (kv : String × JValue) :
    joinMembs [kv] = strLitChars kv.1 ++ ':' :: dumpsChars kv.2 := rfl

theorem joinMembs_cons (kv kw : String × JValue) (tl : List (String × JValue)) :
    joinMembs (kv :: kw :: tl) =
      (strLitChars kv.1 ++ ':' :: dumpsChars kv.2) ++ ',' :: joinMembs (kw :: tl) := rfl

theorem dumpsChars_length_pos (v : JValue) : 0 < (dumpsChars v).length :=
  List.length_pos.mpr (dumpsChars_ne_nil v)

theorem parseStrBody_escChars (s : String) (fuel : Nat) (rest : List Char)
    (h : (escChars s).length < fuel) :
    parseStrBody fuel [] (escChars s ++ '"' :: rest) = some (s, rest) := by
  have h2 := parseStrBody_esc s.data fuel [] rest (by
    have h3 : s.data.flatMap escapeChar = escChars s := rfl
    rw [h3]
    exact h)
  have h3 : s.data.flatMap escapeChar = escChars s := rfl
  rw [h3] at h2
  rw [h2]
  have h4 : String.mk (List.reverse [] ++ s.data) = s := rfl
  rw [h4]

set_option maxHeartbeats 2000000 in
/-- Round-trip, by strong induction on the size of the parsed value: the
parser recovers any value from its compact serialization, in each of the
three parsing modes. -/
theorem parseRT : ∀ N : Nat,
    (∀ v : JValue, sizeOf v ≤ N → ∀ (fuel : Nat) (rest : List Char),
      (dumpsChars v).length < fuel → headNotDigit rest = true →
      parseStep fuel .value (dumpsChars v ++ rest) = some (.val v, rest)) ∧
    (∀ xs : List JValue, sizeOf xs ≤ N → xs ≠ [] → ∀ (fuel : Nat) (rest : List Char),
      (joinElems xs).length + 1 < fuel →
      parseStep fuel .elems (joinElems xs ++ ']' :: rest) = some (.elems xs, rest)) ∧
    (∀ kvs : List (String × JValue), sizeOf kvs ≤ N → kvs ≠ [] →
      ∀ (fuel : Nat) (rest : List Char),
      (joinMembs kvs).length + 1 < fuel →
      parseStep fuel .membs (joinMembs kvs ++ rbrace :: rest) = some (.membs kvs, rest)) := by
  intro N
  induction N using Nat.strong_induction_on with
  | _ N ih =>
  refine ⟨?_, ?_, ?_⟩
  · -- mode .value
    intro v hv fuel rest hfuel hrest
    match fuel, hfuel with
    | f + 1, hfuel =>
    cases v with
    | null =>
      have hd : dumpsChars .null = ['n', 'u', 'l', 'l'] := by simp [dumpsChars]
      rw [hd]
      simp [parseStep, skipWs, isJsonWs, matchLit]
    | bool b =>
      cases b
      · have hd : dumpsChars (.bool false) = ['f', 'a', 'l', 's', 'e'] := by simp [dumpsChars]
        rw [hd]
        simp [parseStep, skipWs, isJsonWs, matchLit]
      · have hd : dumpsChars (.bool true) = ['t', 'r', 'u', 'e'] := by simp [dumpsChars]
        rw [hd]
        simp [parseStep, skipWs, isJsonWs, matchLit]
    | int n =>
      have hd : dumpsChars (.int n) = intChars n := by simp [dumpsChars]
      rw [hd]
      cases n with
      | ofNat m =>
        rw [show intChars (Int.ofNat m) = natChars m from rfl]
        obtain ⟨c, t, hct⟩ := List.exists_cons_of_ne_nil (natChars_ne_nil m)
        have hdig : c.isDigit = true := by
          apply natChars_digit m
          rw [hct]
          exact List.mem_cons_self c t
        obtain ⟨hn, ht, hf2, hq, hlb, hbrace, _, _, _, _, _, _, hws⟩ := digit_ne_marks hdig
        rw [hct, List.cons_append]
        simp only [parseStep]
        rw [skipWs_cons hws]
        simp only []
        rw [if_neg hn, if_neg ht, if_neg hf2, if_neg hq, if_neg hlb, if_neg hbrace,
          if_pos (by simp [hdig])]
        rw [← List.cons_append, ← hct, parseNum_nat m rest hrest]
        rfl
      | negSucc m =>
        rw [show intChars (Int.negSucc m) = '-' :: natChars (m + 1) from rfl, List.cons_append]
        simp only [parseStep]
        rw [skipWs_cons (by decide)]
        simp only []
        rw [if_neg (by decide), if_neg (by decide), if_neg (by decide), if_neg (by decide),
          if_neg (by decide), if_neg (by decide), if_pos (by simp)]
        rw [← List.cons_append,
          ← show intChars (Int.negSucc m) = '-' :: natChars (m + 1) from rfl,
          parseNum_int (Int.negSucc m) rest hrest]
    | str s =>
      have hd : dumpsChars (.str s) = '"' :: (escChars s ++ ['"']) := by
        simp [dumpsChars, strLitChars]
      rw [hd]
      simp only [List.cons_append, List.append_assoc, List.singleton_append, List.nil_append]
      simp only [parseStep]
      rw [skipWs_cons (by decide)]
      simp only []
      simp only [show (('"' : Char) = 'n') = False by simp,
        show (('"' : Char) = 't') = False by simp,
        show (('"' : Char) = 'f') = False by simp, if_false, if_true]
      rw [parseStrBody_escChars s _ rest (by simp; omega)]
    | arr xs =>
      rw [dumpsChars_arr2]
      rw [dumpsChars_arr2] at hfuel
      simp only [List.cons_append, List.append_assoc, List.singleton_append, List.nil_append]
      simp only [parseStep]
      rw [skipWs_cons (by decide)]
      simp only []
      rw [if_neg (by decide), if_neg (by decide), if_neg (by decide), if_neg (by decide)]
      simp only [if_true]
      cases xs with
      | nil =>
        rw [show joinElems [] = [] from rfl, List.nil_append]
        rw [skipWs_cons (by decide)]
        simp only []
        simp only [if_true]
      | cons x xs2 =>
        obtain ⟨cx, tx, hcx, hvs⟩ := dumpsChars_head x
        obtain ⟨hws, hrb, _, _, _⟩ := valueStart_facts hvs
        have hSS : ∃ SS, joinElems (x :: xs2) = cx :: SS := by
          cases xs2 with
          | nil => exact ⟨tx, by rw [joinElems_single, hcx]⟩
          | cons y ys =>
            exact ⟨tx ++ ',' :: joinElems (y :: ys),
              by rw [joinElems_cons, hcx]; simp⟩
        obtain ⟨SS, hSSeq⟩ := hSS
        rw [hSSeq, List.cons_append, skipWs_cons hws]
        simp only []
        rw [if_neg hrb]
        rw [← List.cons_append, ← hSSeq]
        have hsz : sizeOf (x :: xs2) < N := by
          simp only [JValue.arr.sizeOf_spec] at hv
          omega
        have h2 := (ih (sizeOf (x :: xs2)) hsz).2.1 (x :: xs2) le_rfl (by simp) f rest
          (by simp at hfuel; omega)
        rw [h2]
    | obj kvs =>
      rw [dumpsChars_obj2]
      rw [dumpsChars_obj2] at hfuel
      simp only [List.cons_append, List.append_assoc, List.singleton_append, List.nil_append]
      simp only [parseStep]
      rw [skipWs_cons (by decide)]
      simp only []
      rw [if_neg (by decide), if_neg (by decide), if_neg (by decide), if_neg (by decide),
        if_neg (by decide)]
      simp only [if_true]
      cases kvs with
      | nil =>
        rw [show joinMembs [] = [] from rfl, List.nil_append]
        rw [skipWs_cons (by decide)]
        simp only []
        simp only [if_true]
      | cons kv tl =>
        have hSS : ∃ SS, joinMembs (kv :: tl) = '"' :: SS := by
          cases tl with
          | nil =>
            exact ⟨escChars kv.1 ++ ['"'] ++ ':' :: dumpsChars kv.2,
              by rw [joinMembs_single, strLitChars]; simp⟩
          | cons kw tl2 =>
            exact ⟨(escChars kv.1 ++ ['"'] ++ ':' :: dumpsChars kv.2) ++
                ',' :: joinMembs (kw :: tl2),
              by rw [joinMembs_cons, strLitChars]; simp⟩
        obtain ⟨SS, hSSeq⟩ := hSS
        rw [hSSeq, List.cons_append, skipWs_cons (by decide)]
        simp only []
        rw [if_neg (by decide)]
        rw [← List.cons_append, ← hSSeq]
        have hsz : sizeOf (kv :: tl) < N := by
          simp only [JValue.obj.sizeOf_spec] at hv
          omega
        have h2 := (ih (sizeOf (kv :: tl)) hsz).2.2 (kv :: tl) le_rfl (by simp) f rest
          (by simp at hfuel; omega)
        rw [h2]
  · -- mode .elems
    intro xs hN hne fuel rest hfuel
    match fuel, hfuel with
    | f + 1, hfuel =>
    cases xs with
    | nil => exact absurd rfl hne
    | cons x xs2 =>
      simp only [parseStep]
      cases xs2 with
      | nil =>
        rw [joinElems_single] at hfuel ⊢
        have hszx : sizeOf x < N := by
          simp only [List.cons.sizeOf_spec, List.nil.sizeOf_spec] at hN
          omega
        have h1 := (ih (sizeOf x) hszx).1 x le_rfl f (']' :: rest)
          (by omega) rfl
        rw [h1]
        simp only []
        rw [skipWs_cons (by decide)]
        simp only []
        rw [if_neg (by decide)]
        simp only [if_true]
      | cons y ys =>
        rw [joinElems_cons] at hfuel ⊢
        simp only [List.append_assoc, List.cons_append]
        have hszx : sizeOf x < N := by
          simp only [List.cons.sizeOf_spec] at hN
          omega
        have hlen : (dumpsChars x ++ ',' :: joinElems (y :: ys)).length =
            (dumpsChars x).length + (joinElems (y :: ys)).length + 1 := by
          rw [List.length_append, List.length_cons]
          omega
        rw [hlen] at hfuel
        have h1 := (ih (sizeOf x) hszx).1 x le_rfl f
          (',' :: (joinElems (y :: ys) ++ ']' :: rest)) (by omega) rfl
        rw [h1]
        simp only []
        rw [skipWs_cons (by decide)]
        simp only []
        simp only [if_true]
        have hszt : sizeOf (y :: ys) < N := by
          simp only [List.cons.sizeOf_spec] at hN ⊢
          omega
        have h2 := (ih (sizeOf (y :: ys)) hszt).2.1 (y :: ys) le_rfl (by simp) f rest
          (by have := dumpsChars_length_pos x; omega)
        rw [h2]
  · -- mode .membs
    intro kvs hN hne fuel rest hfuel
    match fuel, hfuel with
    | f + 1, hfuel =>
    cases kvs with
    | nil => exact absurd rfl hne
    | cons kv tl =>
      obtain ⟨k, v⟩ := kv
      simp only [parseStep]
      cases tl with
      | nil =>
        rw [joinMembs_single] at hfuel ⊢
        simp only [strLitChars, List.cons_append, List.append_assoc, List.singleton_append, List.nil_append]
        rw [skipWs_cons (by decide)]
        simp only []
        simp only [if_true]
        rw [parseStrBody_escChars k _ _ (by simp; omega)]
        simp only []
        rw [skipWs_cons (by decide)]
        simp only []
        simp only [if_true]
        have hszv : sizeOf v < N := by
          simp only [List.cons.sizeOf_spec, List.nil.sizeOf_spec, Prod.mk.sizeOf_spec] at hN
          omega
        have h1 := (ih (sizeOf v) hszv).1 v le_rfl f (rbrace :: rest)
          (by simp at hfuel; omega) rfl
        rw [h1]
        simp only []
        rw [skipWs_cons (by decide)]
        simp only []
        rw [if_neg (by decide)]
        simp only [if_true]
      | cons kw tl2 =>
        rw [joinMembs_cons] at hfuel ⊢
        simp only [strLitChars, List.cons_append, List.append_assoc, List.singleton_append, List.nil_append]
        rw [skipWs_cons (by decide)]
        simp only []
        simp only [if_true]
        rw [parseStrBody_escChars k _ _ (by simp; omega)]
        simp only []
        rw [skipWs_cons (by decide)]
        simp only []
        simp only [if_true]
        have hszv : sizeOf v < N := by
          simp only [List.cons.sizeOf_spec, Prod.mk.sizeOf_spec] at hN
          omega
        have h1 := (ih (sizeOf v) hszv).1 v le_rfl f
          (',' :: (joinMembs (kw :: tl2) ++ rbrace :: rest))
          (by simp at hfuel; omega) rfl
        rw [h1]
        simp only []
        rw [skipWs_cons (by decide)]
        simp only []
        simp only [if_true]
        have hszt : sizeOf (kw :: tl2) < N := by
          simp only [List.cons.sizeOf_spec, Prod.mk.sizeOf_spec] at hN ⊢
          omega
        have h2 := (ih (sizeOf (kw :: tl2)) hszt).2.2 (kw :: tl2) le_rfl (by simp) f rest
          (by simp at hfuel; have := dumpsChars_length_pos v; omega)
        rw [h2]

/-- Round-trip: parsing a compact `json.dumps` serialization recovers the
value (`json.loads(json.dumps(v)) == v`). -/
theorem parseJson_jsonDumps (v : JValue) : parseJson (jsonDumps v) = some v := by
  unfold parseJson jsonDumps parseJsonChars
  have hdata : (String.mk (dumpsChars v)).data = dumpsChars v := rfl
  rw [hdata]
  have h := (parseRT (sizeOf v)).1 v le_rfl (2 * (dumpsChars v).length + 2) []
    (by omega) rfl
  rw [List.append_nil] at h
  rw [h]
  rfl

theorem mem_commaJoin : ∀ (chunks : List (List Char)) (c : Char),
    c ∈ commaJoin chunks → c = ',' ∨ ∃ ch ∈ chunks, c ∈ ch
  | [], c, h => absurd h (List.not_mem_nil c)
  | [a], c, h => Or.inr ⟨a, List.mem_cons_self a [], by simpa [commaJoin] using h⟩
  | a :: b :: t, c, h => by
    rw [show commaJoin (a :: b :: t) = a ++ ',' :: commaJoin (b :: t) from rfl] at h
    rcases List.mem_append.mp h with h | h
    · exact Or.inr ⟨a, List.mem_cons_self a (b :: t), h⟩
    · rcases List.mem_cons.mp h with rfl | h
      · exact Or.inl rfl
      · rcases mem_commaJoin (b :: t) c h with h | ⟨ch, hm, hc⟩
        · exact Or.inl h
        · exact Or.inr ⟨ch, List.mem_cons_of_mem _ hm, hc⟩

theorem hexDigitLower_ascii : ∀ k, k < 16 →
    0x20 ≤ (hexDigitLower k).toNat ∧ (hexDigitLower k).toNat ≤ 0x7e := by
  decide

theorem mem_hex4_ascii (n : Nat) (d : Char) (hd : d ∈ hex4 n) :
    0x20 ≤ d.toNat ∧ d.toNat ≤ 0x7e := by
  simp only [hex4, List.mem_cons, List.not_mem_nil, or_false] at hd
  rcases hd with rfl | rfl | rfl | rfl <;>
    exact hexDigitLower_ascii _ (Nat.mod_lt _ (by omega))

set_option maxHeartbeats 1000000 in
theorem escapeChar_ascii (c d : Char) (hd : d ∈ escapeChar c) :
    0x20 ≤ d.toNat ∧ d.toNat ≤ 0x7e := by
  unfold escapeChar at hd
  split_ifs at hd with h1 h2 h3 h4 h5 h6 h7 h8 h9 h10
  · simp only [List.mem_cons, List.not_mem_nil, or_false] at hd
    rcases hd with rfl | rfl <;> decide
  · simp only [List.mem_cons, List.not_mem_nil, or_false] at hd
    rcases hd with rfl | rfl <;> decide
  · simp only [List.mem_cons, List.not_mem_nil, or_false] at hd
    rcases hd with rfl | rfl <;> decide
  · simp only [List.mem_cons, List.not_mem_nil, or_false] at hd
    rcases hd with rfl | rfl <;> decide
  · simp only [List.mem_cons, List.not_mem_nil, or_false] at hd
    rcases hd with rfl | rfl <;> decide
  · simp only [List.mem_cons, List.not_mem_nil, or_false] at hd
    rcases hd with rfl | rfl <;> decide
  · simp only [List.mem_cons, List.not_mem_nil, or_false] at hd
    rcases hd with rfl | rfl <;> decide
  · simp only [List.mem_cons] at hd
    rcases hd with rfl | rfl | hd
    · decide
    · decide
    · exact mem_hex4_ascii _ _ hd
  · simp only [List.mem_singleton] at hd
    subst hd
    omega
  · simp only [List.mem_cons] at hd
    rcases hd with rfl | rfl | hd
    · decide
    · decide
    · exact mem_hex4_ascii _ _ hd
  · simp only [List.mem_append, List.mem_cons] at hd
    rcases hd with (rfl | rfl | hd) | (rfl | rfl | hd)
    · decide
    · decide
    · exact mem_hex4_ascii _ _ hd
    · decide
    · decide
    · exact mem_hex4_ascii _ _ hd

theorem natChars_ascii (m : Nat) (c : Char) (hc : c ∈ natChars m) :
    0x20 ≤ c.toNat ∧ c.toNat ≤ 0x7e := by
  rcases natChars_shape m c hc with ⟨d, hd, rfl⟩
  rw [(digit_char_facts d hd).2]
  omega

theorem strLitChars_ascii (s : String) (c : Char) (hc : c ∈ strLitChars s) :
    0x20 ≤ c.toNat ∧ c.toNat ≤ 0x7e := by
  simp only [strLitChars, List.mem_cons, List.mem_append, List.mem_singleton,
    List.not_mem_nil, or_false] at hc
  rcases hc with (rfl | hc) | rfl
  · decide
  · simp only [escChars, List.mem_flatMap] at hc
    rcases hc with ⟨a, _, hca⟩
    exact escapeChar_ascii a c hca
  · decide

theorem dumpsChars_ascii_main : ∀ N : Nat, ∀ v : JValue, sizeOf v ≤ N →
    ∀ c ∈ dumpsChars v, 0x20 ≤ c.toNat ∧ c.toNat ≤ 0x7e := by
  intro N
  induction N using Nat.strong_induction_on with
  | _ N ih =>
  intro v hv c hc
  cases v with
  | null =>
    rw [show dumpsChars .null = ['n', 'u', 'l', 'l'] by simp [dumpsChars]] at hc
    simp only [List.mem_cons, List.not_mem_nil, or_false] at hc
    rcases hc with rfl | rfl | rfl | rfl <;> decide
  | bool b =>
    cases b
    · rw [show dumpsChars (.bool false) = ['f', 'a', 'l', 's', 'e'] by simp [dumpsChars]] at hc
      simp only [List.mem_cons, List.not_mem_nil, or_false] at hc
      rcases hc with rfl | rfl | rfl | rfl | rfl <;> decide
    · rw [show dumpsChars (.bool true) = ['t', 'r', 'u', 'e'] by simp [dumpsChars]] at hc
      simp only [List.mem_cons, List.not_mem_nil, or_false] at hc
      rcases hc with rfl | rfl | rfl | rfl <;> decide
  | int n =>
    rw [show dumpsChars (.int n) = intChars n by simp [dumpsChars]] at hc
    cases n with
    | ofNat m => exact natChars_ascii m c hc
    | negSucc m =>
      rw [intChars] at hc
      rcases List.mem_cons.mp hc with rfl | hc
      · decide
      · exact natChars_ascii (m + 1) c hc
  | str s =>
    rw [show dumpsChars (.str s) = strLitChars s by simp [dumpsChars]] at hc
    exact strLitChars_ascii s c hc
  | arr xs =>
    rw [dumpsChars_arr2] at hc
    rcases List.mem_cons.mp hc with rfl | hc
    · decide
    rcases List.mem_append.mp hc with hc | hc
    · rcases mem_commaJoin _ c hc with rfl | ⟨ch, hm, hcch⟩
      · decide
      · rcases List.mem_map.mp hm with ⟨x, hx, rfl⟩
        have hsz : sizeOf x < N := by
          have := List.sizeOf_lt_of_mem hx
          simp only [JValue.arr.sizeOf_spec] at hv
          omega
        exact ih (sizeOf x) hsz x le_rfl c hcch
    · rcases List.mem_singleton.mp hc with rfl
      decide
  | obj kvs =>
    rw [dumpsChars_obj2] at hc
    rcases List.mem_cons.mp hc with rfl | hc
    · decide
    rcases List.mem_append.mp hc with hc | hc
    · rcases mem_commaJoin _ c hc with rfl | ⟨ch, hm, hcch⟩
      · decide
      · rcases List.mem_map.mp hm with ⟨kv, hkv, rfl⟩
        rcases List.mem_append.mp hcch with hcc | hcc
        · exact strLitChars_ascii kv.1 c hcc
        rcases List.mem_cons.mp hcc with rfl | hcc
        · decide
        · have hsz : sizeOf kv.2 < N := by
            have h1 := List.sizeOf_lt_of_mem hkv
            have h2 : sizeOf kv.2 < sizeOf kv := by
              obtain ⟨k2, v2⟩ := kv
              simp only [Prod.mk.sizeOf_spec]
              omega
            simp only [JValue.obj.sizeOf_spec] at hv
            omega
          exact ih (sizeOf kv.2) hsz kv.2 le_rfl c hcc
    · rcases List.mem_singleton.mp hc with rfl
      decide

/-- Every character of a compact `json.dumps` serialization is a printable
ASCII character: in particular the output is pure ASCII (`ensure_ascii`)
and contains no newline, tab or carriage return. -/
theorem jsonDumps_ascii (v : JValue) :
    ∀ c ∈ (jsonDumps v).data, 0x20 ≤ c.toNat ∧ c.toNat ≤ 0x7e := by
  intro c hc
  exact dumpsChars_ascii_main (sizeOf v) v le_rfl c hc

/-! ## `urllib.parse.quote` (src line 7: `from urllib.parse import quote as _uriquote`) -/

/-- Characters `urllib.parse.quote` leaves unescaped with its default
`safe='/'`: ASCII letters and digits, `_ . - ~`, and `/`. -/
def isUriSafe (c : Char) : Bool :=
  c.isAlpha || c.isDigit || c = '_' || c = '.' || c = '-' || c = '~' || c = '/'

/-- Upper-case hexadecimal digit, as used by percent-encoding. -/
def hexDigitUpper (k : Nat) : Char :=
  Char.ofNat (if k < 10 then 48 + k else 55 + k)

/-- UTF-8 encoding of one character (quote encodes to UTF-8 before escaping). -/
def utf8Bytes (c : Char) : List Nat :=
  let n := c.toNat
  if n < 0x80 then [n]
  else if n < 0x800 then [0xC0 + n / 0x40, 0x80 + n % 0x40]
  else if n < 0x10000 then [0xE0 + n / 0x1000, 0x80 + n / 0x40 % 0x40, 0x80 + n % 0x40]
  else [0xF0 + n / 0x40000, 0x80 + n / 0x1000 % 0x40, 0x80 + n / 0x40 % 0x40, 0x80 + n % 0x40]

/-- Percent-escape of one byte: `%XX` with upper-case hex. -/
def pctEncodeByte (b : Nat) : List Char :=
  ['%', hexDigitUpper (b / 16), hexDigitUpper (b % 16)]

/-- Model of `urllib.parse.quote(s)` with the default `safe='/'`: safe characters are
kept, every other character is UTF-8 encoded and each byte percent-escaped. -/
def pyQuote (s : String) : String :=
  String.mk (s.data.flatMap fun c =>
    if isUriSafe c then [c] else (utf8Bytes c).flatMap pctEncodeByte)

/-! ## `str.format_map` (src lines 38-44) -/

/-- Failures `str.format_map` can raise on the templates of this client:
`KeyError` for a placeholder missing from the mapping, `ValueError` for a
malformed template (unmatched brace). -/
inductive FmtErr where
  | keyError (k : String) : FmtErr
  | valueError : FmtErr
deriving DecidableEq

/-- One pass of `str.format_map` over the template, restricted to the simple
named fields `\x7bname\x7d` this client uses (no conversion or format spec),
plus the `\x7b\x7b` / `\x7d\x7d` brace escapes. The second argument is
`none` in literal text and `some acc` inside a replacement field, `acc`
holding the field name read so far in reverse. -/
def fmtAux (m : List (String × String)) : List Char → Option (List Char) →
    Except FmtErr (List Char)
  | [], none => .ok []
  | [], some _ => .error .valueError
  | c :: cs, none =>
    if c = lbrace then
      match cs with
      | [] => .error .valueError
      | c2 :: cs2 =>
        if c2 = lbrace then (fmtAux m cs2 none).map (fun r => lbrace :: r)
        else if c2 = rbrace then .error .valueError
        else fmtAux m cs2 (some [c2])
    else if c = rbrace then
      match cs with
      | [] => .error .valueError
      | c2 :: cs2 =>
        if c2 = rbrace then (fmtAux m cs2 none).map (fun r => rbrace :: r)
        else .error .valueError
    else (fmtAux m cs none).map (fun r => c :: r)
  | c :: cs, some acc =>
    if c = rbrace then
      match m.lookup (String.mk acc.reverse) with
      | some v => (fmtAux m cs none).map (fun r => v.data ++ r)
      | none => .error (.keyError (String.mk acc.reverse))
    else if c = lbrace then .error .valueError
    else fmtAux m cs (some (c :: acc))

/-- Model of `template.format_map(m)`. -/
def pyFormatMap (s : String) (m : List (String × String)) : Except FmtErr String :=
  (fmtAux m s.data none).map String.mk

/-! ## `Route` (src lines 28-49) -/

/-- Constant `API_VERSION: int = 15` (src line 28). -/
def API_VERSION : Nat := 15

/-- Property `Route.base` (src lines 47-49). -/
def routeBase : String :=
  "https://graph.facebook.com/v" ++ toString API_VERSION ++ ".0"

/-- A value passed as a `Route` keyword parameter (`**parameters: Any`):
the ones this client uses are strings and `None` (an unstarted client's
`phone_id`); integers are included since the spec calls out non-string
values. -/
inductive PVal where
  | str (s : String) : PVal
  | int (n : Int) : PVal
  | pynone : PVal
deriving DecidableEq

/-- The text substituted for a parameter: the dict comprehension on src
lines 40-43 applies `_uriquote` to strings and leaves other values, which
`format_map` then renders with `str()` (`"None"` for `None`, decimal for
ints). -/
def PVal.toFmt : PVal → String
  | .str s => pyQuote s
  | .int n => String.mk (intChars n)
  | .pynone => "None"

/-- Structure `Route`: method, path template, resolved URL (src lines 31-45). -/
structure Route where
  method : String
  path : String
  url : String
deriving DecidableEq

/-- Constructor `Route.__init__` (src lines 34-45): concatenate base and path; when
`parameters` is non-empty (Python truthiness of the dict), substitute via
`format_map` over the quoted/rendered parameters; an empty mapping skips
the substitution entirely. -/
def Route.make (method path : String) (parameters : List (String × PVal)) :
    Except FmtErr Route :=
  let url := routeBase ++ path
  if parameters.isEmpty then .ok ⟨method, path, url⟩
  else
    match pyFormatMap url (parameters.map fun kv => (kv.1, kv.2.toFmt)) with
    | .ok u => .ok ⟨method, path, u⟩
    | .error e => .error e

/-! ## `HTTPClient` (src lines 52-198) -/

/-- Either `response.json()` or the raw text: the decoded body as `request` returns
it (src lines 128-131). -/
inductive Decoded where
  | json (v : JValue) : Decoded
  | text (s : String) : Decoded

/-- Decode a response body: attempt a JSON parse, fall back to raw text
(src lines 128-131). -/
def decodeBody (s : String) : Decoded :=
  match parseJson s with
  | some v => .json v
  | none => .text s

/-- The exceptions the modelled code paths can raise. The typed API errors
carry the response's status code and the decoded body, as in
`errors.py`'s constructors `Err(response, data)`. `attributeError` and
`typeError` are the Python built-ins. -/
inductive PyExc where
  | badRequest (status : Nat) (data : Decoded) : PyExc
  | unauthorized (status : Nat) (data : Decoded) : PyExc
  | forbidden (status : Nat) (data : Decoded) : PyExc
  | notFound (status : Nat) (data : Decoded) : PyExc
  | whatsappServerError (status : Nat) (data : Decoded) : PyExc
  | httpException (status : Nat) (data : Decoded) : PyExc
  | httpExceptionMsg (msg : String) : PyExc
  | attributeError (name : String) : PyExc
  | typeError : PyExc

/-- Modelled from the spec: the error classes live in `whatsapp/errors.py`,
which is not under `src/`. Spec §7 gives the taxonomy: `BadRequest`,
`Unauthorized`, `Forbidden`, `NotFound`, `ServerError` and the generic API
error are one flat family of API failures — in the code, subclasses of
`HTTPException`, which is what `except HTTPException` in `start` catches
(src line 79). `AttributeError` and `TypeError` are Python built-ins
outside that hierarchy, so that handler does not catch them. -/
def PyExc.isHTTPException : PyExc → Bool
  | .badRequest _ _ => true
  | .unauthorized _ _ => true
  | .forbidden _ _ => true
  | .notFound _ _ => true
  | .whatsappServerError _ _ => true
  | .httpException _ _ => true
  | .httpExceptionMsg _ => true
  | .attributeError _ => false
  | .typeError => false

/-- Mutable fields of an `HTTPClient` (src lines 55-71): credentials,
proxy settings, whether `__session` holds a `requests.Session` (it is
`None` until `start`/`restart`), and the fixed User-Agent string. -/
structure ClientState where
  phone_id : Option String
  token : Option String
  proxy : Option String
  proxy_auth : Option String
  hasSession : Bool
  user_agent : String
deriving DecidableEq

/-- A fresh client, as left by `HTTPClient.__init__` with no proxy. -/
def freshClient : ClientState :=
  ⟨none, none, none, none, false, "WhatsappBot"⟩

/-- The `requests.Response` data `request` consumes: `status_code` and the
body text (`response.text`; `response.json()` is its JSON parse). -/
structure HttpResponse where
  status_code : Nat
  body : String
deriving DecidableEq

/-- Attribute lookup of `status` on a `requests.Response`:
`requests.Response` defines `status_code` but has no attribute `status`
(that name belongs to `aiohttp`'s response type), so the lookup raises
`AttributeError`. Src lines 135, 137, 139, 141 and 145 read
`response.status`. -/
def HttpResponse.statusAttr (_ : HttpResponse) : Except PyExc Nat :=
  .error (.attributeError "status")

/-- One entry of the `files` argument (src lines 96, 122-124, 174):
a dict with keys `filename`, `file` (the local path opened in binary
mode) and `mime_type`. -/
structure FileEntry where
  filename : String
  file : String
  mime_type : String
deriving DecidableEq

/-- The request body `requests` is handed (src lines 104-111): nothing, a
dict (sent as form data), or serialized JSON text. -/
inductive ReqBody where
  | empty : ReqBody
  | form (kvs : List (String × JValue)) : ReqBody
  | text (s : String) : ReqBody

/-- The outgoing call as assembled by `request` before the HTTP exchange:
headers, body and the multipart `files` keyword argument. -/
structure PreparedRequest where
  headers : List (String × String)
  body : ReqBody
  files : Option (List (String × (String × String × String)))

/-- The `files` keyword argument: src lines 122-124 loop over the entries
and assign `kwargs["files"]` afresh on every iteration, so each entry
overwrites the previous one. -/
def filesKwarg (files : List FileEntry) :
    Option (List (String × (String × String × String))) :=
  if files.isEmpty then none
  else files.foldl (fun _ f => some [("file", (f.filename, f.file, f.mime_type))]) none

/-- Header and body assembly of `request` (src lines 99-124): User-Agent
always; bearer Authorization when a token is set; when the `json` option is
present, a JSON Content-Type header (set before the dict test), and the
value is forwarded as-is when it is a dict and serialized to compact
ASCII-escaped JSON otherwise. -/
def prepareRequest (st : ClientState) (js : Option JValue) (files : List FileEntry) :
    PreparedRequest :=
  let headers := [("User-Agent", st.user_agent)] ++
    (match st.token with
     | some t => [("Authorization", "Bearer " ++ t)]
     | none => [])
  match js with
  | some data =>
    ⟨headers ++ [("Content-Type", "application/json")],
     (match data with
      | .obj kvs => ReqBody.form kvs
      | _ => ReqBody.text (jsonDumps data)),
     filesKwarg files⟩
  | none => ⟨headers, .empty, filesKwarg files⟩

/-- Status dispatch of `request` (src lines 133-148): 2xx returns the
decoded body; every other status first evaluates `response.status == 400`
(line 135), and `response.status` does not exist on a `requests.Response`,
so an `AttributeError` is raised before any of the typed branches can
fire. The dead branches are kept to mirror the source text. -/
def statusDispatch (resp : HttpResponse) (data : Decoded) : Except PyExc Decoded :=
  if 200 ≤ resp.status_code ∧ resp.status_code < 300 then .ok data
  else
    match resp.statusAttr with
    | .error e => .error e
    | .ok s =>
      if s = 400 then .error (.badRequest resp.status_code data)
      else if s = 401 then .error (.unauthorized resp.status_code data)
      else if s = 403 then .error (.forbidden resp.status_code data)
      else if s = 404 then .error (.notFound resp.status_code data)
      else if resp.status_code = 429 then .error (.httpException resp.status_code data)
      else if 500 ≤ s then .error (.whatsappServerError resp.status_code data)
      else .error (.httpException resp.status_code data)

/-- Model of `HTTPClient.request` (src lines 92-156), given the response the
transport would return for the assembled call: `self.__session.request`
raises `AttributeError` on a client whose session was never created
(`__session` is `None`); a configured proxy is passed as the keyword
argument `proxy`, which `requests.Session.request` does not accept
(`TypeError`); otherwise the body is decoded (JSON parse with raw-text
fallback) and the status dispatched. -/
def HTTPClient.request (st : ClientState) (js : Option JValue) (files : List FileEntry)
    (resp : HttpResponse) : PreparedRequest × Except PyExc Decoded :=
  (prepareRequest st js files,
   if ¬ st.hasSession then .error (.attributeError "request")
   else if st.proxy.isSome ∨ st.proxy_auth.isSome then .error .typeError
   else statusDispatch resp (decodeBody resp.body))

/-- The method names class `HTTPClient` defines (src lines 52-198). -/
def httpClientMethods : List String :=
  ["start", "restart", "close", "request", "fetch_business_profile", "send_message",
   "read_message", "upload_media", "fetch_media_url", "delete_media", "download_media"]

/-- Attribute lookup on an `HTTPClient` instance: a method name not in the
class raises `AttributeError`. -/
def getattrHTTPClient (name : String) : Except PyExc Unit :=
  if name ∈ httpClientMethods then .ok () else .error (.attributeError name)

/-- Model of `HTTPClient.start` (src lines 73-83): create a session, stage the new
credentials (saving the previous ones), then call
`self.get_business_profile(phone_id)` — a method class `HTTPClient` does
not define (the profile fetch is `fetch_business_profile`, src line 158,
and it takes no argument), so the lookup raises `AttributeError`; `except
HTTPException` (line 79) does not catch `AttributeError`, so no rollback
runs and the staged credentials remain. The `.ok` arm of the lookup is
dead code; it records that a successful lookup would have led to the
rollback-or-commit logic of lines 77-83. -/
def HTTPClient.start (st : ClientState) (phone_id token : String) :
    Except PyExc Decoded × ClientState :=
  let staged : ClientState :=
    ⟨some phone_id, some token, st.proxy, st.proxy_auth, true, st.user_agent⟩
  match getattrHTTPClient "get_business_profile" with
  | .ok _ => (.error (.attributeError "unreachable"), staged)
  | .error e =>
    if e.isHTTPException then
      (.error (.httpExceptionMsg "Improper phone_id and/or token has been passed."),
       ⟨st.phone_id, st.token, st.proxy, st.proxy_auth, true, st.user_agent⟩)
    else (.error e, staged)

/-- Model of `HTTPClient.read_message` (src lines 166-169): build the account-scoped
messages route and POST the fixed-shape payload as the `json` option. -/
def HTTPClient.read_message (st : ClientState) (message_id : String) :
    Except FmtErr (Route × JValue) :=
  match Route.make "POST" "/{phone_id}/messages"
      [("phone_id", match st.phone_id with | some p => PVal.str p | none => PVal.pynone)] with
  | .ok route =>
    .ok (route, .obj [("messaging_product", .str "whatsapp"), ("status", .str "read"),
      ("message_id", .str message_id)])
  | .error e => .error e

/-- The response to a media download: `status_code` and the raw binary body
(`response.content`). -/
structure MediaResponse where
  status_code : Nat
  content : List Nat
deriving DecidableEq

/-- The bare GET `download_media` issues (src line 189): method, the media
URL verbatim (no Route construction), and the headers. -/
structure DownloadCall where
  method : String
  url : String
  headers : List (String × String)
deriving DecidableEq

/-- Model of `HTTPClient.download_media` (src lines 185-198): issue a bare GET
against the given absolute URL with the same User-Agent and bearer
Authorization headers as `request`; 200 returns the raw bytes, 404 and 403
raise the typed failures, everything else the generic one. All branches
read `status_code` (this path has no `response.status` slip). A client
without a session raises `AttributeError` on `self.__session.get`. -/
def HTTPClient.download_media (st : ClientState) (media_url : String)
    (resp : MediaResponse) : DownloadCall × Except PyExc (List Nat) :=
  let headers := [("User-Agent", st.user_agent)] ++
    (match st.token with
     | some t => [("Authorization", "Bearer " ++ t)]
     | none => [])
  let call : DownloadCall := ⟨"GET", media_url, headers⟩
  (call,
   if ¬ st.hasSession then .error (.attributeError "get")
   else if resp.status_code = 200 then .ok resp.content
   else if resp.status_code = 404 then
     .error (.notFound resp.status_code (.text "asset not found"))
   else if resp.status_code = 403 then
     .error (.forbidden resp.status_code (.text "cannot retrieve asset"))
   else .error (.httpException resp.status_code (.text "failed to get asset")))

/-! ## Templates with named placeholders -/

/-- A path template, decomposed into literal chunks and named placeholders. -/
inductive Seg where
  | lit (s : String) : Seg
  | field (name : String) : Seg
deriving DecidableEq

/-- Characters of one template segment: a placeholder renders as the name
between braces. -/
def segChars : Seg → List Char
  | .lit s => s.data
  | .field n => lbrace :: n.data ++ [rbrace]

/-- Characters of a template. -/
def renderTmplChars (t : List Seg) : List Char := t.flatMap segChars

/-- A template as a string. -/
def renderTmpl (t : List Seg) : String := String.mk (renderTmplChars t)

/-- No brace characters. -/
def noBrace (l : List Char) : Bool := l.all fun c => c ≠ lbrace && c ≠ rbrace

/-- Well-formed segment: literal chunks carry no brace, placeholder names
are nonempty and carry no brace. -/
def segWF : Seg → Bool
  | .lit s => noBrace s.data
  | .field n => n.data ≠ [] && noBrace n.data

/-- Well-formed template. -/
def tmplWF (t : List Seg) : Bool := t.all segWF

/-- Every placeholder of the template is bound in the mapping. -/
def covers (m : List (String × String)) (t : List Seg) : Bool :=
  t.all fun s => match s with
    | .lit _ => true
    | .field n => (m.lookup n).isSome

/-- Expected substitution of one segment. -/
def substSeg (m : List (String × String)) : Seg → List Char
  | .lit s => s.data
  | .field n => ((m.lookup n).getD "").data

/-- Expected substitution of a template. -/
def substTmpl (m : List (String × String)) (t : List Seg) : List Char :=
  t.flatMap (substSeg m)

theorem noBrace_cons {c : Char} {l : List Char} (h : noBrace (c :: l) = true) :
    (¬ c = lbrace ∧ ¬ c = rbrace) ∧ noBrace l = true := by
  simp only [noBrace, List.all_cons, Bool.and_eq_true, decide_eq_true_eq] at h ⊢
  exact h

theorem fmtAux_lit (m : List (String × String)) :
    ∀ (l rest : List Char), noBrace l = true →
    fmtAux m (l ++ rest) none = (fmtAux m rest none).map (fun r => l ++ r)
  | [], rest, _ => by
    rw [List.nil_append]
    cases h : fmtAux m rest none <;> simp [Except.map, h]
  | c :: l, rest, hl => by
    obtain ⟨⟨h1, h2⟩, h3⟩ := noBrace_cons hl
    rw [List.cons_append]
    rw [show fmtAux m (c :: (l ++ rest)) none =
      (fmtAux m (l ++ rest) none).map (fun r => c :: r) by
        rw [fmtAux.eq_def]
        simp only []
        rw [if_neg h1, if_neg h2]]
    rw [fmtAux_lit m l rest h3]
    cases h : fmtAux m rest none <;> simp [Except.map, h]

theorem fmtAux_fieldAux (m : List (String × String)) :
    ∀ (n acc rest : List Char), noBrace n = true →
    fmtAux m (n ++ rbrace :: rest) (some acc) =
      (match m.lookup (String.mk (acc.reverse ++ n)) with
       | some v => (fmtAux m rest none).map (fun r => v.data ++ r)
       | none => .error (.keyError (String.mk (acc.reverse ++ n))))
  | [], acc, rest, _ => by
    rw [List.nil_append, List.append_nil]
    rw [fmtAux.eq_def]
    simp only [if_true]
  | c :: n, acc, rest, h => by
    obtain ⟨⟨h1, h2⟩, h3⟩ := noBrace_cons h
    rw [List.cons_append]
    rw [show fmtAux m (c :: (n ++ rbrace :: rest)) (some acc) =
      fmtAux m (n ++ rbrace :: rest) (some (c :: acc)) by
        rw [fmtAux.eq_def]
        simp only []
        rw [if_neg h2, if_neg h1]]
    rw [fmtAux_fieldAux m n (c :: acc) rest h3]
    simp only [List.reverse_cons, List.append_assoc, List.cons_append, List.nil_append]

theorem fmtAux_field (m : List (String × String)) (n : String) (rest : List Char)
    (hn : n.data ≠ []) (hwf : noBrace n.data = true) :
    fmtAux m (lbrace :: n.data ++ rbrace :: rest) none =
      (match m.lookup n with
       | some v => (fmtAux m rest none).map (fun r => v.data ++ r)
       | none => .error (.keyError n)) := by
  obtain ⟨c0, n', hn'⟩ := List.exists_cons_of_ne_nil hn
  obtain ⟨⟨h1, h2⟩, h3⟩ := noBrace_cons (hn' ▸ hwf)
  rw [hn', List.cons_append, List.cons_append]
  rw [show fmtAux m (lbrace :: c0 :: (n' ++ rbrace :: rest)) none =
      fmtAux m (n' ++ rbrace :: rest) (some [c0]) by
    rw [fmtAux.eq_def]
    simp only [if_true]
    rw [if_neg h1, if_neg h2]]
  rw [fmtAux_fieldAux m n' [c0] rest h3]
  have hkey : String.mk ([c0].reverse ++ n') = n := by
    rw [show [c0].reverse = [c0] from rfl, List.singleton_append, ← hn']
  rw [hkey]

theorem fmtAux_tmpl (m : List (String × String)) :
    ∀ t : List Seg, tmplWF t = true → covers m t = true →
    fmtAux m (renderTmplChars t) none = .ok (substTmpl m t)
  | [], _, _ => rfl
  | .lit s :: t, hwf, hcov => by
    have hwf1 : noBrace s.data = true ∧ tmplWF t = true := by
      simpa [tmplWF, segWF] using hwf
    have hcov1 : covers m t = true := by
      simpa [covers] using hcov
    rw [show renderTmplChars (.lit s :: t) = s.data ++ renderTmplChars t from rfl]
    rw [fmtAux_lit m s.data _ hwf1.1, fmtAux_tmpl m t hwf1.2 hcov1]
    rfl
  | .field n :: t, hwf, hcov => by
    have hwf1 : (n.data ≠ [] ∧ noBrace n.data = true) ∧ tmplWF t = true := by
      simpa [tmplWF, segWF] using hwf
    have hcov1 : (m.lookup n).isSome = true ∧ covers m t = true := by
      simpa [covers] using hcov
    obtain ⟨⟨hne, hnb⟩, hwft⟩ := hwf1
    obtain ⟨hv0, hcovt⟩ := hcov1
    rw [Option.isSome_iff_exists] at hv0
    obtain ⟨v, hv⟩ := hv0
    rw [show renderTmplChars (.field n :: t) =
      lbrace :: n.data ++ (rbrace :: renderTmplChars t) by
        simp [renderTmplChars, segChars]]
    rw [fmtAux_field m n _ hne hnb, hv, fmtAux_tmpl m t hwft hcovt]
    rw [show substTmpl m (.field n :: t) = ((m.lookup n).getD "").data ++ substTmpl m t
      from rfl, hv]
    rfl

theorem routeBase_eq : routeBase = "https://graph.facebook.com/v15.0" := rfl

theorem utf8Bytes_lt (c : Char) : ∀ b ∈ utf8Bytes c, b < 256 := by
  intro b hb
  have hv := char_valid_nat c
  unfold utf8Bytes at hb
  dsimp only [] at hb
  split_ifs at hb with h1 h2 h3
  · rcases List.mem_singleton.mp hb with rfl
    omega
  · simp only [List.mem_cons, List.not_mem_nil, or_false] at hb
    have d1 : c.toNat / 0x40 < 0x20 := by omega
    have d2 : c.toNat % 0x40 < 0x40 := Nat.mod_lt _ (by omega)
    rcases hb with rfl | rfl <;> omega
  · simp only [List.mem_cons, List.not_mem_nil, or_false] at hb
    have d1 : c.toNat / 0x1000 < 0x10 := by omega
    have d2 : c.toNat / 0x40 % 0x40 < 0x40 := Nat.mod_lt _ (by omega)
    have d3 : c.toNat % 0x40 < 0x40 := Nat.mod_lt _ (by omega)
    rcases hb with rfl | rfl | rfl <;> omega
  · simp only [List.mem_cons, List.not_mem_nil, or_false] at hb
    have hlt : c.toNat < 0x110000 := by omega
    have d1 : c.toNat / 0x40000 < 5 := by omega
    have d2 : c.toNat / 0x1000 % 0x40 < 0x40 := Nat.mod_lt _ (by omega)
    have d3 : c.toNat / 0x40 % 0x40 < 0x40 := Nat.mod_lt _ (by omega)
    have d4 : c.toNat % 0x40 < 0x40 := Nat.mod_lt _ (by omega)
    rcases hb with rfl | rfl | rfl | rfl <;> omega

theorem hexDigitUpper_not_brace : ∀ k, k < 16 →
    ¬ hexDigitUpper k = lbrace ∧ ¬ hexDigitUpper k = rbrace := by
  decide

theorem pctEncodeByte_not_brace (b : Nat) (hb : b < 256) :
    ∀ c ∈ pctEncodeByte b, ¬ c = lbrace ∧ ¬ c = rbrace := by
  intro c hc
  simp only [pctEncodeByte, List.mem_cons, List.not_mem_nil, or_false] at hc
  rcases hc with rfl | rfl | rfl
  · exact ⟨by decide, by decide⟩
  · exact hexDigitUpper_not_brace _ (Nat.div_lt_of_lt_mul (by omega))
  · exact hexDigitUpper_not_brace _ (Nat.mod_lt _ (by omega))

theorem isUriSafe_not_brace {c : Char} (h : isUriSafe c = true) :
    ¬ c = lbrace ∧ ¬ c = rbrace := by
  constructor <;> intro hc <;> subst hc <;> revert h <;> decide

theorem pyQuote_noBrace (s : String) : ∀ c ∈ (pyQuote s).data,
    ¬ c = lbrace ∧ ¬ c = rbrace := by
  intro c hc
  simp only [pyQuote, List.mem_flatMap] at hc
  obtain ⟨a, _, hca⟩ := hc
  by_cases hs : isUriSafe a
  · rw [if_pos hs] at hca
    rcases List.mem_singleton.mp hca with rfl
    exact isUriSafe_not_brace hs
  · rw [if_neg hs] at hca
    simp only [List.mem_flatMap] at hca
    obtain ⟨b, hb, hcb⟩ := hca
    exact pctEncodeByte_not_brace b (utf8Bytes_lt a b hb) c hcb

theorem natChars_not_brace (m : Nat) : ∀ c ∈ natChars m,
    ¬ c = lbrace ∧ ¬ c = rbrace := by
  intro c hc
  rcases natChars_shape m c hc with ⟨d, hd, rfl⟩
  have ht := (digit_char_facts d hd).2
  constructor <;> intro he
  · have h2 := congrArg Char.toNat he
    rw [ht, show lbrace.toNat = 123 from rfl] at h2
    omega
  · have h2 := congrArg Char.toNat he
    rw [ht, show rbrace.toNat = 125 from rfl] at h2
    omega

theorem toFmt_noBrace (pv : PVal) : ∀ c ∈ (PVal.toFmt pv).data,
    ¬ c = lbrace ∧ ¬ c = rbrace := by
  intro c hc
  cases pv with
  | str s => exact pyQuote_noBrace s c hc
  | int n =>
    cases n with
    | ofNat m => exact natChars_not_brace m c hc
    | negSucc m =>
      rcases List.mem_cons.mp hc with rfl | hc
      · exact ⟨by decide, by decide⟩
      · exact natChars_not_brace (m + 1) c hc
  | pynone =>
    simp only [PVal.toFmt] at hc
    simp only [show ("None" : String).data = ['N', 'o', 'n', 'e'] from rfl,
      List.mem_cons, List.not_mem_nil, or_false] at hc
    rcases hc with rfl | rfl | rfl | rfl <;> exact ⟨by decide, by decide⟩

theorem lookup_map_toFmt : ∀ (params : List (String × PVal)) (k v : String),
    (params.map fun kv => (kv.1, kv.2.toFmt)).lookup k = some v →
    ∃ pv : PVal, v = PVal.toFmt pv
  | [], _, _, h => by simp at h
  | ⟨k', pv'⟩ :: t, k, v, h => by
    simp only [List.map_cons, List.lookup] at h
    cases hbe : k == k' with
    | true =>
      rw [hbe] at h
      simp only [] at h
      exact ⟨pv', (Option.some.inj h).symm⟩
    | false =>
      rw [hbe] at h
      simp only [] at h
      exact lookup_map_toFmt t k v h

theorem substTmpl_noBrace (params : List (String × PVal)) (t : List Seg)
    (hwf : tmplWF t = true) :
    ∀ c ∈ substTmpl (params.map fun kv => (kv.1, kv.2.toFmt)) t,
      ¬ c = lbrace ∧ ¬ c = rbrace := by
  intro c hc
  simp only [substTmpl, List.mem_flatMap] at hc
  obtain ⟨seg, hseg, hcs⟩ := hc
  have hswf : segWF seg = true := by
    simp only [tmplWF, List.all_eq_true] at hwf
    exact hwf seg hseg
  cases seg with
  | lit s =>
    simp only [substSeg] at hcs
    simp only [segWF, noBrace, List.all_eq_true] at hswf
    have := hswf c hcs
    simp only [Bool.and_eq_true, decide_eq_true_eq] at this
    exact this
  | field n =>
    simp only [substSeg] at hcs
    cases hl : (params.map fun kv => (kv.1, kv.2.toFmt)).lookup n with
    | none => rw [hl] at hcs; simp at hcs
    | some v =>
      rw [hl] at hcs
      obtain ⟨pv, rfl⟩ := lookup_map_toFmt params n v hl
      exact toFmt_noBrace pv c hcs

theorem pyFormatMap_route (t : List Seg) (m : List (String × String))
    (hwf : tmplWF t = true) (hcov : covers m t = true) :
    pyFormatMap (routeBase ++ renderTmpl t) m =
      .ok (String.mk (routeBase.data ++ substTmpl m t)) := by
  unfold pyFormatMap
  have hdata : (routeBase ++ renderTmpl t).data = routeBase.data ++ renderTmplChars t := by
    rw [String.data_append]
    rfl
  rw [hdata, fmtAux_lit m routeBase.data _ (by decide), fmtAux_tmpl m t hwf hcov]
  rfl

theorem route_make_subst (method : String) (t : List Seg) (params : List (String × PVal))
    (hwf : tmplWF t = true) (hne : params ≠ [])
    (hcov : covers (params.map fun kv => (kv.1, kv.2.toFmt)) t = true) :
    Route.make method (renderTmpl t) params =
      .ok ⟨method, renderTmpl t,
        String.mk (routeBase.data ++
          substTmpl (params.map fun kv => (kv.1, kv.2.toFmt)) t)⟩ := by
  have hni : params.isEmpty = false := by
    cases params with
    | nil => exact absurd rfl hne
    | cons a t2 => rfl
  unfold Route.make
  rw [hni]
  simp only [Bool.false_eq_true, if_false]
  rw [pyFormatMap_route t _ hwf hcov]

/-! ## Claim theorems -/

/-- A client after a session has been created, with credentials set and no
proxy configured. -/
def startedClient : ClientState :=
  ⟨some "12345", some "token", none, none, true, "WhatsappBot"⟩

/-- The keys of a JSON object, in order. -/
def JValue.objKeys : JValue → List String
  | .obj kvs => kvs.map Prod.fst
  | _ => []

theorem filesKwarg_last (fs : List FileEntry) (f : FileEntry) :
    filesKwarg (fs ++ [f]) = some [("file", (f.filename, f.file, f.mime_type))] := by
  unfold filesKwarg
  rw [if_neg (by simp), List.foldl_append]
  rfl

/-- C1: the claim asserts that statuses 400, 401, 403, 404 raise
`BadRequest`, `Unauthorized`, `Forbidden`, `NotFound` carrying the
response. On the code this is unreachable: for every non-2xx status,
line 135 evaluates `response.status == 400`, and `requests.Response` has no
attribute `status` (only `status_code`), so the pipeline raises
`AttributeError` instead of the typed failure. This theorem evaluates the
pipeline at each of the four statuses. -/
theorem request_400_range_attributeError :
    (HTTPClient.request startedClient none [] ⟨400, "\x7b\x7d"⟩).2 =
      .error (.attributeError "status") ∧
    (HTTPClient.request startedClient none [] ⟨401, "\x7b\x7d"⟩).2 =
      .error (.attributeError "status") ∧
    (HTTPClient.request startedClient none [] ⟨403, "\x7b\x7d"⟩).2 =
      .error (.attributeError "status") ∧
    (HTTPClient.request startedClient none [] ⟨404, "\x7b\x7d"⟩).2 =
      .error (.attributeError "status") :=
  ⟨rfl, rfl, rfl, rfl⟩

/-- C2: the claim asserts `ServerError` for statuses ≥ 500 and the generic
API failure for 429 and other non-2xx statuses. On the code all of these
are unreachable for the same reason as C1: line 135's `response.status`
lookup raises `AttributeError` before the 429 check (line 143, which does
use `status_code`) or the ≥ 500 check (line 145) can run. This theorem
evaluates the pipeline at statuses 500, 502, 429 and 418. -/
theorem request_non2xx_attributeError :
    (HTTPClient.request startedClient none [] ⟨500, "\x7b\x7d"⟩).2 =
      .error (.attributeError "status") ∧
    (HTTPClient.request startedClient none [] ⟨502, "\x7b\x7d"⟩).2 =
      .error (.attributeError "status") ∧
    (HTTPClient.request startedClient none [] ⟨429, "\x7b\x7d"⟩).2 =
      .error (.attributeError "status") ∧
    (HTTPClient.request startedClient none [] ⟨418, "\x7b\x7d"⟩).2 =
      .error (.attributeError "status") :=
  ⟨rfl, rfl, rfl, rfl⟩

/-- C3: the claim asserts that `start` validates the staged credentials
with one fetch-business-profile call, rolling back on failure and
committing on success. On the code, line 78 calls
`self.get_business_profile(phone_id)`, a method class `HTTPClient` does not
define (the profile fetch is `fetch_business_profile` and takes no
argument), so every `start` call raises `AttributeError`; `except
HTTPException` does not catch it, so the staged credentials are left in
place — neither the rollback nor the commit-and-return path can run. -/
theorem start_attributeError :
    HTTPClient.start freshClient "12345" "token" =
      (.error (.attributeError "get_business_profile"),
       ⟨some "12345", some "token", none, none, true, "WhatsappBot"⟩) ∧
    (PyExc.attributeError "get_business_profile").isHTTPException = false ∧
    "get_business_profile" ∉ httpClientMethods ∧
    "fetch_business_profile" ∈ httpClientMethods :=
  ⟨rfl, rfl, by decide, by decide⟩

/-- C4: for every method, path template whose placeholders are all supplied
by the (non-empty) parameter mapping, `Route` construction succeeds and
produces a URL that is the fixed base `https://graph.facebook.com/v15.0`
followed by the substituted path, contains no unresolved brace token,
substitutes string parameters percent-encoded per path-segment escaping
(e.g. `"a b"` appears as `"a%20b"`) and other values via their plain
textual rendering. -/
theorem route_url_resolved (method : String) (t : List Seg)
    (params : List (String × PVal))
    (hwf : tmplWF t = true) (hne : params ≠ [])
    (hcov : covers (params.map fun kv => (kv.1, kv.2.toFmt)) t = true) :
    Route.make method (renderTmpl t) params =
      .ok ⟨method, renderTmpl t,
        String.mk (routeBase.data ++
          substTmpl (params.map fun kv => (kv.1, kv.2.toFmt)) t)⟩ ∧
    (∀ c ∈ routeBase.data ++ substTmpl (params.map fun kv => (kv.1, kv.2.toFmt)) t,
      ¬ c = lbrace ∧ ¬ c = rbrace) ∧
    pyQuote "a b" = "a%20b" ∧
    PVal.toFmt (.int 72) = "72" := by
  have hbase : ∀ c ∈ routeBase.data, ¬ c = lbrace ∧ ¬ c = rbrace := by decide
  refine ⟨route_make_subst method t params hwf hne hcov, ?_, by decide, by decide⟩
  intro c hc
  rcases List.mem_append.mp hc with hc | hc
  · exact hbase c hc
  · exact substTmpl_noBrace params t hwf c hc

/-- C4 witness: the account-scoped messages template resolved at a string
containing a space. -/
theorem route_url_resolved_witness :
    Route.make "POST" "/{phone_id}/messages" [("phone_id", PVal.str "a b")] =
      .ok ⟨"POST", "/{phone_id}/messages",
        "https://graph.facebook.com/v15.0/a%20b/messages"⟩ ∧
    pyQuote "a b" = "a%20b" := by
  have h := route_url_resolved "POST" [.lit "/", .field "phone_id", .lit "/messages"]
    [("phone_id", PVal.str "a b")] (by decide) (by decide) (by decide)
  exact ⟨h.1, h.2.2.1⟩

/-- C5: on a 2xx status (and a usable client: session created, no proxy
configured), `request` returns the decoded body — the parsed JSON value
when the body is valid JSON, the raw text otherwise — and decoding
round-trips: the JSON encoding of any dict parses back to an equal dict. -/
theorem request_2xx_decodes (st : ClientState) (js : Option JValue)
    (files : List FileEntry) (resp : HttpResponse) (v : JValue)
    (kvs : List (String × JValue))
    (hsess : st.hasSession = true) (hproxy : st.proxy = none)
    (hpa : st.proxy_auth = none)
    (hsc : 200 ≤ resp.status_code ∧ resp.status_code < 300) :
    ((HTTPClient.request st js files resp).2 = .ok (decodeBody resp.body)) ∧
    (parseJson resp.body = some v → decodeBody resp.body = .json v) ∧
    (parseJson resp.body = none → decodeBody resp.body = .text resp.body) ∧
    parseJson (jsonDumps (.obj kvs)) = some (.obj kvs) := by
  refine ⟨?_, ?_, ?_, parseJson_jsonDumps (.obj kvs)⟩
  · unfold HTTPClient.request statusDispatch
    rw [hsess, hproxy, hpa]
    simp [hsc]
  · intro h
    unfold decodeBody
    rw [h]
  · intro h
    unfold decodeBody
    rw [h]

/-- C5 witness: a 200 response carrying a JSON body decodes to the parsed
value, and a serialized dict parses back. -/
theorem request_2xx_decodes_witness :
    (HTTPClient.request startedClient none [] ⟨200, "\x7b\"a\":1\x7d"⟩).2 =
      .ok (.json (.obj [("a", .int 1)])) ∧
    parseJson (jsonDumps (.obj [("a", .str "b")])) = some (.obj [("a", .str "b")]) := by
  have h := request_2xx_decodes startedClient none [] ⟨200, "\x7b\"a\":1\x7d"⟩
    (.obj [("a", .int 1)]) [("a", .str "b")] rfl rfl rfl (by decide)
  refine ⟨?_, h.2.2.2⟩
  rw [h.1]
  have h2 := h.2.1 (by rfl)
  rw [h2]

/-- C6 counterexample: the claim asserts the JSON content-type header is
set only when the body is serialized, not for the flat-mapping form-data
case. On the code (src line 105) the header is set before the dict test,
so a dict `json` value also gets it: at a concrete dict value the header
is present while the body is forwarded as form data. -/
theorem json_header_set_for_dict :
    ("Content-Type", "application/json") ∈
      (prepareRequest startedClient (some (.obj [("a", .str "b")])) []).headers ∧
    (prepareRequest startedClient (some (.obj [("a", .str "b")])) []).body =
      .form [("a", .str "b")] :=
  ⟨by decide, rfl⟩

/-- C6 (amended): when the `json` option is present, a flat mapping is
forwarded as-is (form data) and any other value is serialized to compact
JSON text with non-ASCII characters escaped; the JSON content-type header
is set in both cases (not only the serialized one), and is absent when no
`json` option is given. The serialization is compact (separators `,` and
`:` with no whitespace, as the concrete exhibit shows) and pure printable
ASCII. -/
theorem request_json_body_encoding (st : ClientState) (js : JValue)
    (files : List FileEntry) :
    (("Content-Type", "application/json") ∈ (prepareRequest st (some js) files).headers) ∧
    ((prepareRequest st (some js) files).body = match js with
      | .obj kvs => .form kvs
      | _ => .text (jsonDumps js)) ∧
    (("Content-Type", "application/json") ∉ (prepareRequest st none files).headers) ∧
    (∀ c ∈ (jsonDumps js).data, 0x20 ≤ c.toNat ∧ c.toNat ≤ 0x7e) ∧
    jsonDumps (.obj [("a", .str "b"), ("c", .arr [.int 1])]) =
      "\x7b\"a\":\"b\",\"c\":[1]\x7d" := by
  have h1 : dumpsChars (.str "b") = strLitChars "b" := by simp [dumpsChars]
  have h2 : dumpsChars (.int 1) = intChars 1 := by simp [dumpsChars]
  have hex : jsonDumps (.obj [("a", .str "b"), ("c", .arr [.int 1])]) =
      "\x7b\"a\":\"b\",\"c\":[1]\x7d" := by
    rw [jsonDumps, dumpsChars_obj]
    simp only [List.map_cons, List.map_nil, h1]
    rw [dumpsChars_arr]
    simp only [List.map_cons, List.map_nil, h2]
    decide
  refine ⟨?_, ?_, ?_, jsonDumps_ascii js, hex⟩
  · unfold prepareRequest
    cases js <;> simp
  · unfold prepareRequest
    cases js <;> rfl
  · unfold prepareRequest
    cases st.token <;> simp

/-- C6 witness: a non-dict value is serialized with its non-ASCII
character escaped, and a dict is forwarded as form data. -/
theorem request_json_body_encoding_witness :
    (prepareRequest startedClient (some (.obj [("x", .int 5)])) []).body =
      .form [("x", .int 5)] ∧
    jsonDumps (.obj [("a", .str "b"), ("c", .arr [.int 1])]) =
      "\x7b\"a\":\"b\",\"c\":[1]\x7d" :=
  ⟨(request_json_body_encoding startedClient (.obj [("x", .int 5)]) []).2.1,
   (request_json_body_encoding startedClient (.obj [("x", .int 5)]) []).2.2.2.2⟩

/-- C7: when the `files` sequence is non-empty, exactly one multipart
field named `"file"` is attached, carrying the filename, file source and
MIME type of the last entry — every earlier entry is overwritten by the
assignment inside the loop on src lines 123-124. -/
theorem files_last_entry_wins (st : ClientState) (js : Option JValue)
    (fs : List FileEntry) (f : FileEntry) :
    (prepareRequest st js (fs ++ [f])).files =
      some [("file", (f.filename, f.file, f.mime_type))] := by
  unfold prepareRequest
  cases js <;> simp only [] <;> exact filesKwarg_last fs f

/-- C8: `download_media` issues a bare GET against the given URL verbatim
(no Route construction) with exactly the same User-Agent and bearer
Authorization headers `request` uses, returns the raw binary body on a 200
response, and maps 404 to `NotFound`, 403 to `Forbidden` and every other
status to the generic API failure. -/
theorem download_media_mapping (st : ClientState) (url : String)
    (r : MediaResponse) (hs : st.hasSession = true) :
    (HTTPClient.download_media st url r).1 =
      ⟨"GET", url, (prepareRequest st none []).headers⟩ ∧
    (HTTPClient.download_media st url r).2 =
      (if r.status_code = 200 then .ok r.content
       else if r.status_code = 404 then
         .error (.notFound r.status_code (.text "asset not found"))
       else if r.status_code = 403 then
         .error (.forbidden r.status_code (.text "cannot retrieve asset"))
       else .error (.httpException r.status_code (.text "failed to get asset"))) := by
  constructor
  · rfl
  · unfold HTTPClient.download_media
    rw [hs]
    simp

/-- C8 witness: a mocked 404 download raises `NotFound`. -/
theorem download_media_mapping_witness :
    (HTTPClient.download_media startedClient "https://lookaside.fbsbx.com/x" ⟨404, [7]⟩).2 =
      .error (.notFound 404 (.text "asset not found")) :=
  ((download_media_mapping startedClient "https://lookaside.fbsbx.com/x" ⟨404, [7]⟩
    rfl).2).trans rfl

/-- C9 counterexample: the claim states the mark-read payload is
`\x7bproduct: "whatsapp", status: "read", message_id\x7d`; on the code
(src line 168) the first key is `messaging_product`, so the claimed
payload is not what `read_message` produces. -/
theorem read_message_payload_not_product :
    HTTPClient.read_message startedClient "wamid.X" ≠
      .ok (⟨"POST", "/{phone_id}/messages",
        "https://graph.facebook.com/v15.0/12345/messages"⟩,
        .obj [("product", .str "whatsapp"), ("status", .str "read"),
          ("message_id", .str "wamid.X")]) := by
  intro h
  have he : HTTPClient.read_message startedClient "wamid.X" =
      .ok (⟨"POST", "/{phone_id}/messages",
        "https://graph.facebook.com/v15.0/12345/messages"⟩,
        .obj [("messaging_product", .str "whatsapp"), ("status", .str "read"),
          ("message_id", .str "wamid.X")]) := rfl
  rw [he] at h
  have h2 := congrArg (fun x => match x with
    | Except.ok p => JValue.objKeys p.2
    | Except.error _ => []) h
  simp only [JValue.objKeys, List.map_cons, List.map_nil] at h2
  exact absurd h2 (by decide)

/-- C9 (amended): `read_message` POSTs to the account-scoped messages
endpoint exactly the fixed-shape payload with keys `messaging_product`
(value `"whatsapp"`), `status` (value `"read"`) and `message_id` — the
first key is `messaging_product`, not `product`. -/
theorem read_message_route_payload (st : ClientState) (p mid : String)
    (hp : st.phone_id = some p) :
    HTTPClient.read_message st mid =
      .ok (⟨"POST", "/{phone_id}/messages",
        String.mk (routeBase.data ++ ('/' :: ((pyQuote p).data ++ "/messages".data)))⟩,
        .obj [("messaging_product", .str "whatsapp"), ("status", .str "read"),
          ("message_id", .str mid)]) := by
  unfold HTTPClient.read_message
  rw [hp]
  have ht := route_make_subst "POST" [.lit "/", .field "phone_id", .lit "/messages"]
    [("phone_id", PVal.str p)] (by decide) (by simp) rfl
  rw [show renderTmpl [.lit "/", .field "phone_id", .lit "/messages"] =
    "/{phone_id}/messages" from rfl] at ht
  rw [ht]
  rfl

/-- C9 witness: the amended payload and route at a concrete client. -/
theorem read_message_route_payload_witness :
    HTTPClient.read_message startedClient "wamid.X" =
      .ok (⟨"POST", "/{phone_id}/messages",
        "https://graph.facebook.com/v15.0/12345/messages"⟩,
        .obj [("messaging_product", .str "whatsapp"), ("status", .str "read"),
          ("message_id", .str "wamid.X")]) :=
  read_message_route_payload startedClient "12345" "wamid.X" rfl

/-- C10: with an empty parameter mapping no substitution pass runs at all —
the URL is the base plus the path verbatim, brace tokens preserved and no
formatting failure raised; the missing-key `KeyError` only arises when at
least one parameter is supplied. -/
theorem route_empty_params (method path : String) :
    Route.make method path [] = .ok ⟨method, path, routeBase ++ path⟩ ∧
    Route.make "POST" "/{phone_id}/messages" [] =
      .ok ⟨"POST", "/{phone_id}/messages",
        "https://graph.facebook.com/v15.0/{phone_id}/messages"⟩ ∧
    lbrace ∈ ("https://graph.facebook.com/v15.0/{phone_id}/messages" : String).data ∧
    Route.make "POST" "/{phone_id}/messages" [("x", PVal.str "v")] =
      .error (.keyError "phone_id") :=
  ⟨rfl, rfl, by decide, rfl⟩
